import Mathlib

set_option maxHeartbeats 1000000
set_option linter.unnecessarySeqFocus false
set_option linter.unusedVariables false
set_option linter.unreachableTactic false

/-!
Verification of the ImageModifier quadtree (`src/pa3/qtree.cpp`).

The quadtree node stores an inclusive upper-left corner, an inclusive
lower-right corner, an average color and up to four child pointers; a null
pointer marks an absent child.  Machine coordinates are modelled by `ℤ`
(the C++ code mixes `unsigned`/`int` arithmetic which never wraps on trees
satisfying the geometric invariant) and the three 8-bit color channels by
`ℕ`.
-/

/-- Pixel color: three 8-bit channels; alpha is unused/opaque in the design
and plays no role in any operation of the core. -/
structure RGBA where
  r : ℕ
  g : ℕ
  b : ℕ
deriving DecidableEq, Repr

/-- Quadtree node, mirroring the C++ `Node`: rectangle corners `upLeft` /
`lowRight` (both inclusive), average color, and four optional children. -/
inductive Node where
  | mk (ul lr : ℤ × ℤ) (avg : RGBA) (nw ne sw se : Option Node)

def Node.ul : Node → ℤ × ℤ
  | .mk u _ _ _ _ _ _ => u

def Node.lr : Node → ℤ × ℤ
  | .mk _ l _ _ _ _ _ => l

def Node.avg : Node → RGBA
  | .mk _ _ a _ _ _ _ => a

def Node.nw : Node → Option Node
  | .mk _ _ _ c _ _ _ => c

def Node.ne : Node → Option Node
  | .mk _ _ _ _ c _ _ => c

def Node.sw : Node → Option Node
  | .mk _ _ _ _ _ c _ => c

def Node.se : Node → Option Node
  | .mk _ _ _ _ _ _ c => c

@[simp] theorem Node.ul_mk (u l : ℤ × ℤ) (a : RGBA) (c1 c2 c3 c4 : Option Node) :
    (Node.mk u l a c1 c2 c3 c4).ul = u := rfl

@[simp] theorem Node.lr_mk (u l : ℤ × ℤ) (a : RGBA) (c1 c2 c3 c4 : Option Node) :
    (Node.mk u l a c1 c2 c3 c4).lr = l := rfl

@[simp] theorem Node.avg_mk (u l : ℤ × ℤ) (a : RGBA) (c1 c2 c3 c4 : Option Node) :
    (Node.mk u l a c1 c2 c3 c4).avg = a := rfl

@[simp] theorem Node.nw_mk (u l : ℤ × ℤ) (a : RGBA) (c1 c2 c3 c4 : Option Node) :
    (Node.mk u l a c1 c2 c3 c4).nw = c1 := rfl

@[simp] theorem Node.ne_mk (u l : ℤ × ℤ) (a : RGBA) (c1 c2 c3 c4 : Option Node) :
    (Node.mk u l a c1 c2 c3 c4).ne = c2 := rfl

@[simp] theorem Node.sw_mk (u l : ℤ × ℤ) (a : RGBA) (c1 c2 c3 c4 : Option Node) :
    (Node.mk u l a c1 c2 c3 c4).sw = c3 := rfl

@[simp] theorem Node.se_mk (u l : ℤ × ℤ) (a : RGBA) (c1 c2 c3 c4 : Option Node) :
    (Node.mk u l a c1 c2 c3 c4).se = c4 := rfl

/-- Width of a node's rectangle, `lowRight.first - upLeft.first + 1` in the C++. -/
def Node.w (n : Node) : ℤ := n.lr.1 - n.ul.1 + 1

/-- Height of a node's rectangle, `lowRight.second - upLeft.second + 1`. -/
def Node.h (n : Node) : ℤ := n.lr.2 - n.ul.2 + 1

/-- Replace a node's rectangle in place (models the coordinate rewriting done
by `positionNormal` / `coordinateHelper` on an existing node). -/
def Node.withRect (n : Node) (u l : ℤ × ℤ) : Node :=
  .mk u l n.avg n.nw n.ne n.sw n.se

@[simp] theorem Node.withRect_ul (n : Node) (u l : ℤ × ℤ) : (n.withRect u l).ul = u := rfl
@[simp] theorem Node.withRect_lr (n : Node) (u l : ℤ × ℤ) : (n.withRect u l).lr = l := rfl
@[simp] theorem Node.withRect_avg (n : Node) (u l : ℤ × ℤ) : (n.withRect u l).avg = n.avg := rfl
@[simp] theorem Node.withRect_nw (n : Node) (u l : ℤ × ℤ) : (n.withRect u l).nw = n.nw := rfl
@[simp] theorem Node.withRect_ne (n : Node) (u l : ℤ × ℤ) : (n.withRect u l).ne = n.ne := rfl
@[simp] theorem Node.withRect_sw (n : Node) (u l : ℤ × ℤ) : (n.withRect u l).sw = n.sw := rfl
@[simp] theorem Node.withRect_se (n : Node) (u l : ℤ × ℤ) : (n.withRect u l).se = n.se := rfl

theorem Node.withRect_self (n : Node) : n.withRect n.ul n.lr = n := by
  cases n <;> rfl

/-- The C++ leaf test: all four child pointers are null. -/
def Node.isLeafB (n : Node) : Bool :=
  n.nw.isNone && n.ne.isNone && n.sw.isNone && n.se.isNone

@[simp] theorem Node.isLeafB_withRect (n : Node) (u l : ℤ × ℤ) :
    (n.withRect u l).isLeafB = n.isLeafB := by
  cases n <;> rfl

/-- Number of nodes in the subtree (1 for a leaf). -/
def Node.size : Node → ℕ
  | .mk _ _ _ nw ne sw se =>
      1 + (match nw with | none => 0 | some c => c.size)
        + (match ne with | none => 0 | some c => c.size)
        + (match sw with | none => 0 | some c => c.size)
        + (match se with | none => 0 | some c => c.size)

/-- Size of an optional subtree. -/
def osize : Option Node → ℕ
  | none => 0
  | some c => c.size

theorem Node.size_mk (u l : ℤ × ℤ) (a : RGBA) (c1 c2 c3 c4 : Option Node) :
    (Node.mk u l a c1 c2 c3 c4).size = 1 + osize c1 + osize c2 + osize c3 + osize c4 := by
  cases c1 <;> cases c2 <;> cases c3 <;> cases c4 <;> rfl

@[simp] theorem Node.size_withRect (n : Node) (u l : ℤ × ℤ) :
    (n.withRect u l).size = n.size := by
  cases n
  simp only [Node.withRect, Node.nw_mk, Node.ne_mk, Node.sw_mk, Node.se_mk, Node.avg_mk]
  rw [Node.size_mk, Node.size_mk]

theorem Node.size_pos (n : Node) : 0 < n.size := by
  cases n with
  | mk u l a c1 c2 c3 c4 => rw [Node.size_mk]; omega

theorem size_lt_of_nw {n : Node} {c : Node} (h : n.nw = some c) : c.size < n.size := by
  cases n with
  | mk u l a c1 c2 c3 c4 =>
    simp only [Node.nw_mk] at h
    subst h
    rw [Node.size_mk]
    simp only [osize]
    omega

theorem size_lt_of_ne {n : Node} {c : Node} (h : n.ne = some c) : c.size < n.size := by
  cases n with
  | mk u l a c1 c2 c3 c4 =>
    simp only [Node.ne_mk] at h
    subst h
    rw [Node.size_mk]
    simp only [osize]
    omega

theorem size_lt_of_sw {n : Node} {c : Node} (h : n.sw = some c) : c.size < n.size := by
  cases n with
  | mk u l a c1 c2 c3 c4 =>
    simp only [Node.sw_mk] at h
    subst h
    rw [Node.size_mk]
    simp only [osize]
    omega

theorem size_lt_of_se {n : Node} {c : Node} (h : n.se = some c) : c.size < n.size := by
  cases n with
  | mk u l a c1 c2 c3 c4 =>
    simp only [Node.se_mk] at h
    subst h
    rw [Node.size_mk]
    simp only [osize]
    omega

/-- Width of an optional child (`0` for a null pointer; the C++ only ever
dereferences children its branch guards prove non-null). -/
def ow : Option Node → ℤ
  | none => 0
  | some c => c.w

/-- Height of an optional child. -/
def oh : Option Node → ℤ
  | none => 0
  | some c => c.h

@[simp] theorem ow_some (c : Node) : ow (some c) = c.w := rfl
@[simp] theorem oh_some (c : Node) : oh (some c) = c.h := rfl

/-- Modelled from the spec: the input raster collaborator (`PNG`), providing
`width()`, `height()` and per-pixel read access by integer coordinate. -/
structure Img where
  w : ℕ
  h : ℕ
  pix : ℕ → ℕ → RGBA

/-- Area of an optional child's rectangle,
`(lowRight.second - upLeft.second + 1) * (lowRight.first - upLeft.first + 1)`
exactly as `QTree::assignColor` computes it. -/
def oarea : Option Node → ℤ
  | none => 0
  | some c => (c.lr.2 - c.ul.2 + 1) * (c.lr.1 - c.ul.1 + 1)

/-- Red channel of an optional child's average. -/
def oR : Option Node → ℤ
  | none => 0
  | some c => (c.avg.r : ℤ)

/-- Green channel of an optional child's average. -/
def oG : Option Node → ℤ
  | none => 0
  | some c => (c.avg.g : ℤ)

/-- Blue channel of an optional child's average. -/
def oB : Option Node → ℤ
  | none => 0
  | some c => (c.avg.b : ℤ)

/-- `QTree::assignColor`: recompute the node's average from the
already-computed averages of its direct children, weighted by child area,
with integer-truncating division.  The string `mode` selects which children
participate, exactly as in the C++ ("v" = NW/SW, "h" = NW/NE, else all four). -/
def assignColor (n : Node) (mode : String) : Node :=
  if mode = "v" then
    let nwArea := oarea n.nw
    let swArea := oarea n.sw
    let totalArea := nwArea + swArea
    Node.mk n.ul n.lr
      ⟨((nwArea * oR n.nw + swArea * oR n.sw) / totalArea).toNat,
       ((nwArea * oG n.nw + swArea * oG n.sw) / totalArea).toNat,
       ((nwArea * oB n.nw + swArea * oB n.sw) / totalArea).toNat⟩
      n.nw n.ne n.sw n.se
  else if mode = "h" then
    let nwArea := oarea n.nw
    let neArea := oarea n.ne
    let totalArea := nwArea + neArea
    Node.mk n.ul n.lr
      ⟨((nwArea * oR n.nw + neArea * oR n.ne) / totalArea).toNat,
       ((nwArea * oG n.nw + neArea * oG n.ne) / totalArea).toNat,
       ((nwArea * oB n.nw + neArea * oB n.ne) / totalArea).toNat⟩
      n.nw n.ne n.sw n.se
  else
    let nwArea := oarea n.nw
    let neArea := oarea n.ne
    let swArea := oarea n.sw
    let seArea := oarea n.se
    let totalArea := nwArea + neArea + swArea + seArea
    Node.mk n.ul n.lr
      ⟨((nwArea * oR n.nw + neArea * oR n.ne + swArea * oR n.sw + seArea * oR n.se) / totalArea).toNat,
       ((nwArea * oG n.nw + neArea * oG n.ne + swArea * oG n.sw + seArea * oG n.se) / totalArea).toNat,
       ((nwArea * oB n.nw + neArea * oB n.ne + swArea * oB n.sw + seArea * oB n.se) / totalArea).toNat⟩
      n.nw n.ne n.sw n.se

/-- `QTree::BuildNode`: recursively build the subtree for the rectangle with
inclusive corners `ul`, `lr` (machine `unsigned` coordinates, modelled by `ℕ`).
`halfw`/`halfh` are `ceil(x/2)` / `ceil(y/2)`, the extra unit of an odd split
going to the left/upper half.  The initial average of an internal node is the
default pixel `(255,255,255)`, immediately overwritten by `assignColor`. -/
def buildNode (img : Img) (ul lr : ℕ × ℕ) : Node :=
  let x : ℕ := lr.1 - ul.1 + 1
  let y : ℕ := lr.2 - ul.2 + 1
  let halfw : ℕ := (x + 1) / 2
  let halfh : ℕ := (y + 1) / 2
  if hxy : x = 1 ∧ y = 1 then
    Node.mk ((ul.1 : ℤ), (ul.2 : ℤ)) ((lr.1 : ℤ), (lr.2 : ℤ)) (img.pix ul.1 ul.2)
      none none none none
  else if hx : x = 1 then
    assignColor
      (Node.mk ((ul.1 : ℤ), (ul.2 : ℤ)) ((lr.1 : ℤ), (lr.2 : ℤ)) ⟨255, 255, 255⟩
        (some (buildNode img ul (ul.1 + halfw - 1, ul.2 + halfh - 1)))
        none
        (some (buildNode img (ul.1, ul.2 + halfh) (ul.1 + halfw - 1, lr.2)))
        none)
      "v"
  else if hy : y = 1 then
    assignColor
      (Node.mk ((ul.1 : ℤ), (ul.2 : ℤ)) ((lr.1 : ℤ), (lr.2 : ℤ)) ⟨255, 255, 255⟩
        (some (buildNode img ul (ul.1 + halfw - 1, ul.2 + halfh - 1)))
        (some (buildNode img (ul.1 + halfw, ul.2) (lr.1, ul.2 + halfh - 1)))
        none
        none)
      "h"
  else
    assignColor
      (Node.mk ((ul.1 : ℤ), (ul.2 : ℤ)) ((lr.1 : ℤ), (lr.2 : ℤ)) ⟨255, 255, 255⟩
        (some (buildNode img ul (ul.1 + halfw - 1, ul.2 + halfh - 1)))
        (some (buildNode img (ul.1 + halfw, ul.2) (lr.1, ul.2 + halfh - 1)))
        (some (buildNode img (ul.1, ul.2 + halfh) (ul.1 + halfw - 1, lr.2)))
        (some (buildNode img (ul.1 + halfw, ul.2 + halfh) lr)))
      "else"
  termination_by (lr.1 - ul.1) + (lr.2 - ul.2)
  decreasing_by all_goals omega

/-- `QTree::FlipNode` with its helper `positionNormal`.

The C++ infers the post-swap split extents `width1`/`height1` from whichever
children are present (the three branch cases), swaps `NW↔NE` and `SW↔SE`,
rewrites the four children's rectangles inside the node's own (unchanged)
rectangle, and recurses.  `positionNormal` only reads the node's rectangle
and `width1`/`height1`; children's stale coordinates are only read through
their widths/heights, which flipping preserves. -/
def flipNode (n : Node) : Node :=
  if n.isLeafB then n
  else
    let w1 : ℤ :=
      if n.nw.isNone && n.sw.isNone then n.w - ow n.ne
      else if n.nw.isNone && n.ne.isNone then ow n.sw
      else ow n.nw
    let h1 : ℤ :=
      if n.nw.isNone && n.sw.isNone then oh n.ne
      else if n.nw.isNone && n.ne.isNone then n.h - oh n.sw
      else oh n.nw
    Node.mk n.ul n.lr n.avg
      (match hne : n.ne with
       | none => none
       | some c => some (flipNode (c.withRect (n.ul.1, n.ul.2) (n.lr.1 - w1, n.ul.2 + h1 - 1))))
      (match hnw : n.nw with
       | none => none
       | some c => some (flipNode (c.withRect (n.lr.1 - w1 + 1, n.ul.2) (n.lr.1, n.ul.2 + h1 - 1))))
      (match hse : n.se with
       | none => none
       | some c => some (flipNode (c.withRect (n.ul.1, n.ul.2 + h1) (n.lr.1 - w1, n.lr.2))))
      (match hsw : n.sw with
       | none => none
       | some c => some (flipNode (c.withRect (n.lr.1 - w1 + 1, n.ul.2 + h1) (n.lr.1, n.lr.2))))
  termination_by n.size
  decreasing_by
  · simp only [Node.size_withRect]; exact size_lt_of_ne hne
  · simp only [Node.size_withRect]; exact size_lt_of_nw hnw
  · simp only [Node.size_withRect]; exact size_lt_of_se hse
  · simp only [Node.size_withRect]; exact size_lt_of_sw hsw

/-- `QTree::RotateSubtree` with its helper `coordinateHelper`.

On entry the node's own rectangle has already been rewritten (by the caller)
to its rotated extent, while the children still carry pre-rotation
rectangles; the C++ reads those only through widths/heights.  It computes
`width2`/`height1` per branch, rewrites each child's rectangle via
`coordinateHelper`, cycles the pointers (`NW←NE, SW←NW, SE←SW, NE←SE`) and
recurses.  (`width1` is computed by the C++ but never used by
`coordinateHelper`.) -/
def rotateSubtree (n : Node) : Node :=
  if n.isLeafB then n
  else
    let w2 : ℤ :=
      if n.nw.isNone && n.sw.isNone then ow n.ne
      else if n.nw.isNone && n.ne.isNone then ow n.se
      else if n.ne.isNone && n.se.isNone then n.h - ow n.nw
      else ow n.ne
    let h1 : ℤ :=
      if n.nw.isNone && n.sw.isNone then oh n.ne
      else if n.nw.isNone && n.ne.isNone then n.w - oh n.sw
      else oh n.nw
    Node.mk n.ul n.lr n.avg
      (match hne : n.ne with
       | none => none
       | some c => some (rotateSubtree (c.withRect (n.ul.1, n.ul.2) (n.ul.1 + h1 - 1, n.ul.2 + w2 - 1))))
      (match hse : n.se with
       | none => none
       | some c => some (rotateSubtree (c.withRect (n.ul.1 + h1, n.ul.2) (n.lr.1, n.ul.2 + w2 - 1))))
      (match hnw : n.nw with
       | none => none
       | some c => some (rotateSubtree (c.withRect (n.ul.1, n.ul.2 + w2) (n.ul.1 + h1 - 1, n.lr.2))))
      (match hsw : n.sw with
       | none => none
       | some c => some (rotateSubtree (c.withRect (n.ul.1 + h1, n.ul.2 + w2) (n.lr.1, n.lr.2))))
  termination_by n.size
  decreasing_by
  · simp only [Node.size_withRect]; exact size_lt_of_ne hne
  · simp only [Node.size_withRect]; exact size_lt_of_se hse
  · simp only [Node.size_withRect]; exact size_lt_of_nw hnw
  · simp only [Node.size_withRect]; exact size_lt_of_sw hsw

/-- `QTree::shouldPrune`: a null subtree is vacuously prunable, a leaf is
prunable iff its average is within tolerance of `a`, an internal node iff all
four (optional) children are.  The comparison `avg.distanceTo(a) <= tolerance`
against the external color-distance metric is abstracted into the Boolean
parameter `wt` (within-tolerance). -/
def shouldPrune (wt : RGBA → RGBA → ℚ → Bool) (τ : ℚ) : Option Node → RGBA → Bool
  | none, _ => true
  | some n, a =>
    if n.isLeafB then wt n.avg a τ
    else
      shouldPrune wt τ n.nw a && shouldPrune wt τ n.ne a &&
      shouldPrune wt τ n.sw a && shouldPrune wt τ n.se a
  termination_by o => osize o
  decreasing_by
  · cases hnw : n.nw with
    | none => simp [osize, Node.size_pos]
    | some c => simp only [osize, hnw]; exact size_lt_of_nw hnw
  · cases hne : n.ne with
    | none => simp [osize, Node.size_pos]
    | some c => simp only [osize, hne]; exact size_lt_of_ne hne
  · cases hsw : n.sw with
    | none => simp [osize, Node.size_pos]
    | some c => simp only [osize, hsw]; exact size_lt_of_sw hsw
  · cases hse : n.se with
    | none => simp [osize, Node.size_pos]
    | some c => simp only [osize, hse]; exact size_lt_of_se hse

/-- Net effect of `QTree::DeleteChildren`: all four child pointers null,
rectangle and average untouched. -/
def deleteChildren (n : Node) : Node :=
  Node.mk n.ul n.lr n.avg none none none none

/-- `QTree::PruneNode`: a leaf is returned unchanged; otherwise, if the whole
subtree is within tolerance of its own root average the children are deleted
(the subsequent recursion into the now-null children is a no-op), else each
child is pruned independently. -/
def pruneNode (wt : RGBA → RGBA → ℚ → Bool) (τ : ℚ) (n : Node) : Node :=
  if n.isLeafB then n
  else if shouldPrune wt τ (some n) n.avg then deleteChildren n
  else
    Node.mk n.ul n.lr n.avg
      (match hnw : n.nw with
       | none => none
       | some c => some (pruneNode wt τ c))
      (match hne : n.ne with
       | none => none
       | some c => some (pruneNode wt τ c))
      (match hsw : n.sw with
       | none => none
       | some c => some (pruneNode wt τ c))
      (match hse : n.se with
       | none => none
       | some c => some (pruneNode wt τ c))
  termination_by n.size
  decreasing_by
  · exact size_lt_of_nw hnw
  · exact size_lt_of_ne hne
  · exact size_lt_of_sw hsw
  · exact size_lt_of_se hse

/-- Output raster: a total assignment of colors to integer pixel positions.
Modelled from the spec: the output collaborator is constructible at a given
size with mutable per-pixel access; its initial contents are supplied as the
`bg` argument of `render`. -/
def Canvas : Type := (ℤ × ℤ) → RGBA

/-- Net effect of the C++ double loop writing color `col` to every pixel
`(i, j)` with `x0 ≤ i ≤ x1`, `y0 ≤ j ≤ y1`. -/
def paintRect (x0 x1 y0 y1 : ℤ) (col : RGBA) (img : Canvas) : Canvas :=
  fun p => if x0 ≤ p.1 ∧ p.1 ≤ x1 ∧ y0 ≤ p.2 ∧ p.2 ≤ y1 then col else img p

/-- `QTree::RenderPixel`: at `scale == 1` the node paints its whole rectangle
with its average; at any other scale it paints only the `scale × scale` block
at `upLeft * scale`.  Children are then painted in NW, NE, SW, SE order,
overwriting the parent. -/
def renderPixel (scale : ℕ) : Option Node → Canvas → Canvas
  | none, img => img
  | some n, img =>
    let img1 : Canvas :=
      if scale = 1 then
        paintRect n.ul.1 (n.ul.1 + n.w - 1) n.ul.2 (n.ul.2 + n.h - 1) n.avg img
      else
        paintRect (n.ul.1 * scale) (n.ul.1 * scale + scale - 1)
          (n.ul.2 * scale) (n.ul.2 * scale + scale - 1) n.avg img
    renderPixel scale n.se (renderPixel scale n.sw (renderPixel scale n.ne (renderPixel scale n.nw img1)))
  termination_by o => osize o
  decreasing_by
  · cases hnw : n.nw with
    | none => simp [osize, Node.size_pos]
    | some c => simp only [osize, hnw]; exact size_lt_of_nw hnw
  · cases hne : n.ne with
    | none => simp [osize, Node.size_pos]
    | some c => simp only [osize, hne]; exact size_lt_of_ne hne
  · cases hsw : n.sw with
    | none => simp [osize, Node.size_pos]
    | some c => simp only [osize, hsw]; exact size_lt_of_sw hsw
  · cases hse : n.se with
    | none => simp [osize, Node.size_pos]
    | some c => simp only [osize, hse]; exact size_lt_of_se hse

/-- The `QTree` class: the image's width and height plus the owned root. -/
structure QTree where
  width : ℕ
  height : ℕ
  root : Node

/-- The `QTree(const PNG&)` constructor: store the image dimensions and build
the root over the rectangle `(0,0)` – `(width-1, height-1)`. -/
def QTree.ofImage (img : Img) : QTree :=
  ⟨img.w, img.h, buildNode img (0, 0) (img.w - 1, img.h - 1)⟩

/-- `QTree::FlipHorizontal`. -/
def QTree.flipH (t : QTree) : QTree :=
  ⟨t.width, t.height, flipNode t.root⟩

/-- `QTree::RotateCCW`: swap the stored width/height, swap the root
rectangle's `lowRight` components, then rotate the subtree. -/
def QTree.rotCCW (t : QTree) : QTree :=
  ⟨t.height, t.width, rotateSubtree (t.root.withRect t.root.ul (t.root.lr.2, t.root.lr.1))⟩

/-- `QTree::Prune`. -/
def QTree.pruneAt (wt : RGBA → RGBA → ℚ → Bool) (τ : ℚ) (t : QTree) : QTree :=
  ⟨t.width, t.height, pruneNode wt τ t.root⟩

/-- `QTree::Render`: paint the tree on a canvas whose initial contents are
`bg` (the freshly constructed `PNG(width*scale, height*scale)`). -/
def QTree.render (t : QTree) (scale : ℕ) (bg : Canvas) : Canvas :=
  renderPixel scale (some t.root) bg

/-- Modelled from the spec: `RGBAPixel::distanceTo` (the color type and its
distance metric are an external collaborator, not part of this repository's
sources).  The spec only requires "a distance metric to another color value";
its concrete scenario (`prune(500)` collapsing the 2×2 example) fixes the
usual Euclidean distance on the three channels.  `euclWithin a b τ` renders
the C++ comparison `a.distanceTo(b) <= tolerance`, expressed without square
roots as `0 ≤ τ ∧ dist² ≤ τ²`. -/
def euclWithin (a b : RGBA) (τ : ℚ) : Bool :=
  decide (0 ≤ τ ∧
    ((a.r : ℚ) - b.r) ^ 2 + ((a.g : ℚ) - b.g) ^ 2 + ((a.b : ℚ) - b.b) ^ 2 ≤ τ ^ 2)

/-- The leaves of a subtree, in NW, NE, SW, SE traversal order. -/
def leafNodes (n : Node) : List Node :=
  if n.isLeafB then [n]
  else
    (match hnw : n.nw with | none => [] | some c => leafNodes c) ++
    (match hne : n.ne with | none => [] | some c => leafNodes c) ++
    (match hsw : n.sw with | none => [] | some c => leafNodes c) ++
    (match hse : n.se with | none => [] | some c => leafNodes c)
  termination_by n.size
  decreasing_by
  · exact size_lt_of_nw hnw
  · exact size_lt_of_ne hne
  · exact size_lt_of_sw hsw
  · exact size_lt_of_se hse

/-- All nodes of a subtree (the node itself first). -/
def nodesOf (n : Node) : List Node :=
  n ::
    ((match hnw : n.nw with | none => [] | some c => nodesOf c) ++
     (match hne : n.ne with | none => [] | some c => nodesOf c) ++
     (match hsw : n.sw with | none => [] | some c => nodesOf c) ++
     (match hse : n.se with | none => [] | some c => nodesOf c))
  termination_by n.size
  decreasing_by
  · exact size_lt_of_nw hnw
  · exact size_lt_of_ne hne
  · exact size_lt_of_sw hsw
  · exact size_lt_of_se hse

/-- The multiset of average colors stored in all nodes of a subtree. -/
def avgsM (n : Node) : Multiset RGBA :=
  n.avg ::ₘ
    ((match hnw : n.nw with | none => 0 | some c => avgsM c) +
     (match hne : n.ne with | none => 0 | some c => avgsM c) +
     (match hsw : n.sw with | none => 0 | some c => avgsM c) +
     (match hse : n.se with | none => 0 | some c => avgsM c))
  termination_by n.size
  decreasing_by
  · exact size_lt_of_nw hnw
  · exact size_lt_of_ne hne
  · exact size_lt_of_sw hsw
  · exact size_lt_of_se hse

/-- A point lies in the rectangle with inclusive corners `u`, `l`. -/
def inRect (u l : ℤ × ℤ) (p : ℤ × ℤ) : Prop :=
  u.1 ≤ p.1 ∧ p.1 ≤ l.1 ∧ u.2 ≤ p.2 ∧ p.2 ≤ l.2

instance (u l p : ℤ × ℤ) : Decidable (inRect u l p) := by
  unfold inRect; infer_instance

/-- The node list of an optional subtree. -/
def onodes : Option Node → List Node
  | none => []
  | some n => nodesOf n

/-- The multiset of averages of an optional subtree. -/
def oavgs : Option Node → Multiset RGBA
  | none => 0
  | some n => avgsM n

/-- The direct (non-null) children of a node, in NW, NE, SW, SE order. -/
def kids (n : Node) : List Node :=
  [n.nw, n.ne, n.sw, n.se].filterMap id

/-- A child's pixel area as the spec words it: rectangle width times height. -/
def childArea (c : Node) : ℤ :=
  (c.lr.1 - c.ul.1 + 1) * (c.lr.2 - c.ul.2 + 1)

/-- Modelled from the spec: the per-channel integer-truncating area-weighted
mean of the already-computed averages of exactly the direct (non-null)
children, `avg.channel = Σ(childArea·childAvg.channel) / Σ(childArea)`.
Stated for comparison with the average `assignColor` actually stores. -/
def specChildAvg (n : Node) : RGBA :=
  ⟨(((kids n).map (fun c => childArea c * (c.avg.r : ℤ))).sum /
      ((kids n).map childArea).sum).toNat,
   (((kids n).map (fun c => childArea c * (c.avg.g : ℤ))).sum /
      ((kids n).map childArea).sum).toNat,
   (((kids n).map (fun c => childArea c * (c.avg.b : ℤ))).sum /
      ((kids n).map childArea).sum).toNat⟩

/-- The split rule `QTree::BuildNode` follows at a single node, phrased on the
node's own rectangle (width `q.w`, height `q.h`, divider at `ceil(w/2)` /
`ceil(h/2)`, the extra unit of an odd split going to the left/upper half):
a node with `w > 1` and `h > 1` has four children in the four quadrants;
`w = 1 < h` leaves only NW/SW (stacked); `h = 1 < w` only NW/NE (side by
side); a `1×1` node is a leaf holding that pixel of the image. -/
def SplitOK (img : Img) (q : Node) : Prop :=
  (1 < q.w → 1 < q.h →
    ∃ c1 c2 c3 c4, q.nw = some c1 ∧ q.ne = some c2 ∧ q.sw = some c3 ∧ q.se = some c4 ∧
      c1.ul = q.ul ∧ c1.lr = (q.ul.1 + (q.w + 1) / 2 - 1, q.ul.2 + (q.h + 1) / 2 - 1) ∧
      c2.ul = (q.ul.1 + (q.w + 1) / 2, q.ul.2) ∧ c2.lr = (q.lr.1, q.ul.2 + (q.h + 1) / 2 - 1) ∧
      c3.ul = (q.ul.1, q.ul.2 + (q.h + 1) / 2) ∧ c3.lr = (q.ul.1 + (q.w + 1) / 2 - 1, q.lr.2) ∧
      c4.ul = (q.ul.1 + (q.w + 1) / 2, q.ul.2 + (q.h + 1) / 2) ∧ c4.lr = q.lr) ∧
  (q.w = 1 → 1 < q.h →
    ∃ c1 c3, q.nw = some c1 ∧ q.ne = none ∧ q.sw = some c3 ∧ q.se = none ∧
      c1.ul = q.ul ∧ c1.lr = (q.lr.1, q.ul.2 + (q.h + 1) / 2 - 1) ∧
      c3.ul = (q.ul.1, q.ul.2 + (q.h + 1) / 2) ∧ c3.lr = q.lr) ∧
  (1 < q.w → q.h = 1 →
    ∃ c1 c2, q.nw = some c1 ∧ q.ne = some c2 ∧ q.sw = none ∧ q.se = none ∧
      c1.ul = q.ul ∧ c1.lr = (q.ul.1 + (q.w + 1) / 2 - 1, q.lr.2) ∧
      c2.ul = (q.ul.1 + (q.w + 1) / 2, q.ul.2) ∧ c2.lr = q.lr) ∧
  (q.w = 1 → q.h = 1 →
    q.nw = none ∧ q.ne = none ∧ q.sw = none ∧ q.se = none ∧
    q.avg = img.pix q.ul.1.toNat q.ul.2.toNat)

/-- The 2×2 image of the spec's concrete scenario: row-major pixels
`(255,0,0), (0,255,0); (0,0,255), (255,255,0)`. -/
def img2 : Img :=
  ⟨2, 2, fun i j =>
    if i = 0 ∧ j = 0 then ⟨255, 0, 0⟩
    else if i = 1 ∧ j = 0 then ⟨0, 255, 0⟩
    else if i = 0 ∧ j = 1 then ⟨0, 0, 255⟩
    else ⟨255, 255, 0⟩⟩

/-- An all-black initial canvas (a freshly constructed output `PNG`). -/
def bg0 : Canvas := fun _ => ⟨0, 0, 0⟩

/-- Geometric well-formedness of a subtree.  The five non-leaf constructors
are exactly the child-presence patterns reachable from construction by any
sequence of flips and rotations, each with the split geometry the operations
maintain: present children tile the node's rectangle and carry the
rectangles recorded here.  `quad` splits at `(sx, sy)`; `horiz` is a
west/east pair in NW/NE, `vert` a north/south pair in NW/SW, `spair` a
west/east pair in SW/SE, `epair` a north/south pair in NE/SE. -/
inductive WF : Node → Prop where
  | leaf (ax ay cx cy : ℤ) (avg : RGBA) (h1 : ax ≤ cx) (h2 : ay ≤ cy) :
      WF (.mk (ax, ay) (cx, cy) avg none none none none)
  | quad (ax ay cx cy sx sy : ℤ) (avg : RGBA) (p1 p2 p3 p4 : Node)
      (hx1 : ax < sx) (hx2 : sx ≤ cx) (hy1 : ay < sy) (hy2 : sy ≤ cy)
      (hnwu : p1.ul = (ax, ay)) (hnwl : p1.lr = (sx - 1, sy - 1))
      (hneu : p2.ul = (sx, ay)) (hnel : p2.lr = (cx, sy - 1))
      (hswu : p3.ul = (ax, sy)) (hswl : p3.lr = (sx - 1, cy))
      (hseu : p4.ul = (sx, sy)) (hsel : p4.lr = (cx, cy))
      (w1 : WF p1) (w2 : WF p2) (w3 : WF p3) (w4 : WF p4) :
      WF (.mk (ax, ay) (cx, cy) avg (some p1) (some p2) (some p3) (some p4))
  | horiz (ax ay cx cy sx : ℤ) (avg : RGBA) (p1 p2 : Node)
      (hx1 : ax < sx) (hx2 : sx ≤ cx) (hy : ay ≤ cy)
      (hnwu : p1.ul = (ax, ay)) (hnwl : p1.lr = (sx - 1, cy))
      (hneu : p2.ul = (sx, ay)) (hnel : p2.lr = (cx, cy))
      (w1 : WF p1) (w2 : WF p2) :
      WF (.mk (ax, ay) (cx, cy) avg (some p1) (some p2) none none)
  | vert (ax ay cx cy sy : ℤ) (avg : RGBA) (p1 p3 : Node)
      (hy1 : ay < sy) (hy2 : sy ≤ cy) (hx : ax ≤ cx)
      (hnwu : p1.ul = (ax, ay)) (hnwl : p1.lr = (cx, sy - 1))
      (hswu : p3.ul = (ax, sy)) (hswl : p3.lr = (cx, cy))
      (w1 : WF p1) (w3 : WF p3) :
      WF (.mk (ax, ay) (cx, cy) avg (some p1) none (some p3) none)
  | spair (ax ay cx cy sx : ℤ) (avg : RGBA) (p3 p4 : Node)
      (hx1 : ax < sx) (hx2 : sx ≤ cx) (hy : ay ≤ cy)
      (hswu : p3.ul = (ax, ay)) (hswl : p3.lr = (sx - 1, cy))
      (hseu : p4.ul = (sx, ay)) (hsel : p4.lr = (cx, cy))
      (w3 : WF p3) (w4 : WF p4) :
      WF (.mk (ax, ay) (cx, cy) avg none none (some p3) (some p4))
  | epair (ax ay cx cy sy : ℤ) (avg : RGBA) (p2 p4 : Node)
      (hy1 : ay < sy) (hy2 : sy ≤ cy) (hx : ax ≤ cx)
      (hneu : p2.ul = (ax, ay)) (hnel : p2.lr = (cx, sy - 1))
      (hseu : p4.ul = (ax, sy)) (hsel : p4.lr = (cx, cy))
      (w2 : WF p2) (w4 : WF p4) :
      WF (.mk (ax, ay) (cx, cy) avg none (some p2) none (some p4))

/-- Well-formedness of a whole tree: a well-formed root whose rectangle is
exactly `[0, width-1] × [0, height-1]`, with positive dimensions. -/
def WFT (t : QTree) : Prop :=
  WF t.root ∧ t.root.ul = (0, 0) ∧
    t.root.lr = ((t.width : ℤ) - 1, (t.height : ℤ) - 1) ∧
    1 ≤ t.width ∧ 1 ≤ t.height

/-- Trees reachable through the public interface: built from an image with
positive dimensions, then transformed by any sequence of `Prune`,
`FlipHorizontal` and `RotateCCW` (with any within-tolerance predicate `wt`
standing for the external color metric, and any tolerance). -/
inductive Reachable : QTree → Prop where
  | build (img : Img) (hw : 1 ≤ img.w) (hh : 1 ≤ img.h) : Reachable (QTree.ofImage img)
  | prune (t : QTree) (wt : RGBA → RGBA → ℚ → Bool) (τ : ℚ) (h : Reachable t) :
      Reachable (t.pruneAt wt τ)
  | flip (t : QTree) (h : Reachable t) : Reachable t.flipH
  | rot (t : QTree) (h : Reachable t) : Reachable t.rotCCW

@[simp] theorem flipNode_ul (n : Node) : (flipNode n).ul = n.ul := by
  rw [flipNode]
  split
  · rfl
  · simp

@[simp] theorem flipNode_lr (n : Node) : (flipNode n).lr = n.lr := by
  rw [flipNode]
  split
  · rfl
  · simp

@[simp] theorem flipNode_avg (n : Node) : (flipNode n).avg = n.avg := by
  rw [flipNode]
  split
  · rfl
  · simp

@[simp] theorem rotateSubtree_ul (n : Node) : (rotateSubtree n).ul = n.ul := by
  rw [rotateSubtree]
  split
  · rfl
  · simp

@[simp] theorem rotateSubtree_lr (n : Node) : (rotateSubtree n).lr = n.lr := by
  rw [rotateSubtree]
  split
  · rfl
  · simp

@[simp] theorem rotateSubtree_avg (n : Node) : (rotateSubtree n).avg = n.avg := by
  rw [rotateSubtree]
  split
  · rfl
  · simp

@[simp] theorem pruneNode_ul (wt : RGBA → RGBA → ℚ → Bool) (τ : ℚ) (n : Node) :
    (pruneNode wt τ n).ul = n.ul := by
  rw [pruneNode]
  split
  · rfl
  · split <;> simp [deleteChildren]

@[simp] theorem pruneNode_lr (wt : RGBA → RGBA → ℚ → Bool) (τ : ℚ) (n : Node) :
    (pruneNode wt τ n).lr = n.lr := by
  rw [pruneNode]
  split
  · rfl
  · split <;> simp [deleteChildren]

@[simp] theorem pruneNode_avg (wt : RGBA → RGBA → ℚ → Bool) (τ : ℚ) (n : Node) :
    (pruneNode wt τ n).avg = n.avg := by
  rw [pruneNode]
  split
  · rfl
  · split <;> simp [deleteChildren]


/-- Flipping preserves well-formedness: if `n` is well-formed and its
rectangle is rewritten to any horizontal translate of itself (exactly what
`positionNormal` does to each child before `FlipNode` recurses into it), the
flipped result is well-formed. -/
theorem wf_flip_shift {n : Node} (hn : WF n) :
    ∀ u l : ℤ × ℤ, u.2 = n.ul.2 → l.2 = n.lr.2 → u.1 - n.ul.1 = l.1 - n.lr.1 →
    WF (flipNode (n.withRect u l)) := by
  induction hn with
  | leaf ax ay cx cy avg h1 h2 =>
    intro u l hu hl hs
    obtain ⟨ux, uy⟩ := u
    obtain ⟨lx, ly⟩ := l
    simp only [Node.ul_mk, Node.lr_mk] at hu hl hs
    subst hu hl
    simp only [Node.withRect, Node.nw_mk, Node.ne_mk, Node.sw_mk, Node.se_mk, Node.avg_mk]
    rw [flipNode]
    simp only [Node.isLeafB, Node.nw_mk, Node.ne_mk, Node.sw_mk, Node.se_mk,
      Option.isNone_none, Bool.and_self, if_true]
    exact WF.leaf ux uy lx ly avg (by omega) (by omega)
  | quad ax ay cx cy sx sy avg p1 p2 p3 p4 hx1 hx2 hy1 hy2 hnwu hnwl hneu hnel hswu hswl
      hseu hsel w1 w2 w3 w4 ih1 ih2 ih3 ih4 =>
    intro u l hu hl hs
    obtain ⟨ux, uy⟩ := u
    obtain ⟨lx, ly⟩ := l
    simp only [Node.ul_mk, Node.lr_mk] at hu hl hs
    subst hu hl
    simp only [Node.withRect, Node.nw_mk, Node.ne_mk, Node.sw_mk, Node.se_mk, Node.avg_mk,
      Node.ul_mk, Node.lr_mk]
    rw [flipNode]
    simp only [Node.isLeafB, Node.nw_mk, Node.ne_mk, Node.sw_mk, Node.se_mk, Node.ul_mk,
      Node.lr_mk, Node.avg_mk, Option.isNone_some, Option.isNone_none, Bool.false_and,
      Bool.and_true, Bool.true_and, Bool.and_false, ow_some, oh_some, Node.w, Node.h,
      hnwu, hnwl, hneu, hnel, hswu, hswl, hseu, hsel]
    norm_num
    refine WF.quad ux uy lx ly (lx - (sx - 1 - ax + 1) + 1) (uy + (sy - 1 - uy + 1)) avg
      _ _ _ _ ?_ ?_ ?_ ?_ ?_ ?_ ?_ ?_ ?_ ?_ ?_ ?_ ?_ ?_ ?_ ?_
    · omega
    · omega
    · omega
    · omega
    · simp only [flipNode_ul, Node.withRect_ul, Prod.mk.injEq, and_true, true_and] <;> omega
    · simp only [flipNode_lr, Node.withRect_lr, Prod.mk.injEq, and_true, true_and] <;> omega
    · simp only [flipNode_ul, Node.withRect_ul, Prod.mk.injEq, and_true, true_and] <;> omega
    · simp only [flipNode_lr, Node.withRect_lr, Prod.mk.injEq, and_true, true_and] <;> omega
    · simp only [flipNode_ul, Node.withRect_ul, Prod.mk.injEq, and_true, true_and] <;> omega
    · simp only [flipNode_lr, Node.withRect_lr, Prod.mk.injEq, and_true, true_and] <;> omega
    · simp only [flipNode_ul, Node.withRect_ul, Prod.mk.injEq, and_true, true_and] <;> omega
    · simp only [flipNode_lr, Node.withRect_lr, Prod.mk.injEq, and_true, true_and] <;> omega
    · exact ih2 _ _ (by simp [hneu] <;> omega) (by simp [hnel] <;> omega)
        (by simp [hneu, hnel] <;> omega)
    · exact ih1 _ _ (by simp [hnwu] <;> omega) (by simp [hnwl] <;> omega)
        (by simp [hnwu, hnwl] <;> omega)
    · exact ih4 _ _ (by simp [hseu] <;> omega) (by simp [hsel] <;> omega)
        (by simp [hseu, hsel] <;> omega)
    · exact ih3 _ _ (by simp [hswu] <;> omega) (by simp [hswl] <;> omega)
        (by simp [hswu, hswl] <;> omega)
  | horiz ax ay cx cy sx avg p1 p2 hx1 hx2 hy hnwu hnwl hneu hnel w1 w2 ih1 ih2 =>
    intro u l hu hl hs
    obtain ⟨ux, uy⟩ := u
    obtain ⟨lx, ly⟩ := l
    simp only [Node.ul_mk, Node.lr_mk] at hu hl hs
    subst hu hl
    simp only [Node.withRect, Node.nw_mk, Node.ne_mk, Node.sw_mk, Node.se_mk, Node.avg_mk,
      Node.ul_mk, Node.lr_mk]
    rw [flipNode]
    simp only [Node.isLeafB, Node.nw_mk, Node.ne_mk, Node.sw_mk, Node.se_mk, Node.ul_mk,
      Node.lr_mk, Node.avg_mk, Option.isNone_some, Option.isNone_none, Bool.false_and,
      Bool.and_true, Bool.true_and, Bool.and_false, ow_some, oh_some, Node.w, Node.h,
      hnwu, hnwl, hneu, hnel]
    norm_num
    refine WF.horiz ux uy lx ly (lx - (sx - 1 - ax + 1) + 1) avg _ _ ?_ ?_ ?_ ?_ ?_ ?_ ?_ ?_ ?_
    · omega
    · omega
    · omega
    · simp only [flipNode_ul, Node.withRect_ul, Prod.mk.injEq, and_true, true_and] <;> omega
    · simp only [flipNode_lr, Node.withRect_lr, Prod.mk.injEq, and_true, true_and] <;> omega
    · simp only [flipNode_ul, Node.withRect_ul, Prod.mk.injEq, and_true, true_and] <;> omega
    · simp only [flipNode_lr, Node.withRect_lr, Prod.mk.injEq, and_true, true_and] <;> omega
    · exact ih2 _ _ (by simp [hneu] <;> omega) (by simp [hnel] <;> omega)
        (by simp [hneu, hnel] <;> omega)
    · exact ih1 _ _ (by simp [hnwu] <;> omega) (by simp [hnwl] <;> omega)
        (by simp [hnwu, hnwl] <;> omega)
  | vert ax ay cx cy sy avg p1 p3 hy1 hy2 hx hnwu hnwl hswu hswl w1 w3 ih1 ih3 =>
    intro u l hu hl hs
    obtain ⟨ux, uy⟩ := u
    obtain ⟨lx, ly⟩ := l
    simp only [Node.ul_mk, Node.lr_mk] at hu hl hs
    subst hu hl
    simp only [Node.withRect, Node.nw_mk, Node.ne_mk, Node.sw_mk, Node.se_mk, Node.avg_mk,
      Node.ul_mk, Node.lr_mk]
    rw [flipNode]
    simp only [Node.isLeafB, Node.nw_mk, Node.ne_mk, Node.sw_mk, Node.se_mk, Node.ul_mk,
      Node.lr_mk, Node.avg_mk, Option.isNone_some, Option.isNone_none, Bool.false_and,
      Bool.and_true, Bool.true_and, Bool.and_false, ow_some, oh_some, Node.w, Node.h,
      hnwu, hnwl, hswu, hswl]
    norm_num
    refine WF.epair ux uy lx ly (uy + (sy - 1 - uy + 1)) avg _ _ ?_ ?_ ?_ ?_ ?_ ?_ ?_ ?_ ?_
    · omega
    · omega
    · omega
    · simp only [flipNode_ul, Node.withRect_ul, Prod.mk.injEq, and_true, true_and] <;> omega
    · simp only [flipNode_lr, Node.withRect_lr, Prod.mk.injEq, and_true, true_and] <;> omega
    · simp only [flipNode_ul, Node.withRect_ul, Prod.mk.injEq, and_true, true_and] <;> omega
    · simp only [flipNode_lr, Node.withRect_lr, Prod.mk.injEq, and_true, true_and] <;> omega
    · exact ih1 _ _ (by simp [hnwu] <;> omega) (by simp [hnwl] <;> omega)
        (by simp [hnwu, hnwl] <;> omega)
    · exact ih3 _ _ (by simp [hswu] <;> omega) (by simp [hswl] <;> omega)
        (by simp [hswu, hswl] <;> omega)
  | spair ax ay cx cy sx avg p3 p4 hx1 hx2 hy hswu hswl hseu hsel w3 w4 ih3 ih4 =>
    intro u l hu hl hs
    obtain ⟨ux, uy⟩ := u
    obtain ⟨lx, ly⟩ := l
    simp only [Node.ul_mk, Node.lr_mk] at hu hl hs
    subst hu hl
    simp only [Node.withRect, Node.nw_mk, Node.ne_mk, Node.sw_mk, Node.se_mk, Node.avg_mk,
      Node.ul_mk, Node.lr_mk]
    rw [flipNode]
    simp only [Node.isLeafB, Node.nw_mk, Node.ne_mk, Node.sw_mk, Node.se_mk, Node.ul_mk,
      Node.lr_mk, Node.avg_mk, Option.isNone_some, Option.isNone_none, Bool.false_and,
      Bool.and_true, Bool.true_and, Bool.and_false, ow_some, oh_some, Node.w, Node.h,
      hswu, hswl, hseu, hsel]
    norm_num
    refine WF.spair ux uy lx ly (lx - (sx - 1 - ax + 1) + 1) avg _ _ ?_ ?_ ?_ ?_ ?_ ?_ ?_ ?_ ?_
    · omega
    · omega
    · omega
    · simp only [flipNode_ul, Node.withRect_ul, Prod.mk.injEq, and_true, true_and] <;> omega
    · simp only [flipNode_lr, Node.withRect_lr, Prod.mk.injEq, and_true, true_and] <;> omega
    · simp only [flipNode_ul, Node.withRect_ul, Prod.mk.injEq, and_true, true_and] <;> omega
    · simp only [flipNode_lr, Node.withRect_lr, Prod.mk.injEq, and_true, true_and] <;> omega
    · exact ih4 _ _ (by simp [hseu] <;> omega) (by simp [hsel] <;> omega)
        (by simp [hseu, hsel] <;> omega)
    · exact ih3 _ _ (by simp [hswu] <;> omega) (by simp [hswl] <;> omega)
        (by simp [hswu, hswl] <;> omega)
  | epair ax ay cx cy sy avg p2 p4 hy1 hy2 hx hneu hnel hseu hsel w2 w4 ih2 ih4 =>
    intro u l hu hl hs
    obtain ⟨ux, uy⟩ := u
    obtain ⟨lx, ly⟩ := l
    simp only [Node.ul_mk, Node.lr_mk] at hu hl hs
    subst hu hl
    simp only [Node.withRect, Node.nw_mk, Node.ne_mk, Node.sw_mk, Node.se_mk, Node.avg_mk,
      Node.ul_mk, Node.lr_mk]
    rw [flipNode]
    simp only [Node.isLeafB, Node.nw_mk, Node.ne_mk, Node.sw_mk, Node.se_mk, Node.ul_mk,
      Node.lr_mk, Node.avg_mk, Option.isNone_some, Option.isNone_none, Bool.false_and,
      Bool.and_true, Bool.true_and, Bool.and_false, ow_some, oh_some, Node.w, Node.h,
      hneu, hnel, hseu, hsel]
    norm_num
    refine WF.vert ux uy lx ly (uy + (sy - 1 - uy + 1)) avg _ _ ?_ ?_ ?_ ?_ ?_ ?_ ?_ ?_ ?_
    · omega
    · omega
    · omega
    · simp only [flipNode_ul, Node.withRect_ul, Prod.mk.injEq, and_true, true_and] <;> omega
    · simp only [flipNode_lr, Node.withRect_lr, Prod.mk.injEq, and_true, true_and] <;> omega
    · simp only [flipNode_ul, Node.withRect_ul, Prod.mk.injEq, and_true, true_and] <;> omega
    · simp only [flipNode_lr, Node.withRect_lr, Prod.mk.injEq, and_true, true_and] <;> omega
    · exact ih2 _ _ (by simp [hneu] <;> omega) (by simp [hnel] <;> omega)
        (by simp [hneu, hnel] <;> omega)
    · exact ih4 _ _ (by simp [hseu] <;> omega) (by simp [hsel] <;> omega)
        (by simp [hseu, hsel] <;> omega)

/-- Rotation preserves well-formedness: if `n` is well-formed and its
rectangle is rewritten to any rectangle with width and height exchanged
(exactly what `RotateCCW` does to the root and `coordinateHelper` to each
child before `RotateSubtree` recurses into it), the rotated result is
well-formed. -/
theorem wf_rot {n : Node} (hn : WF n) :
    ∀ u l : ℤ × ℤ, l.1 - u.1 = n.lr.2 - n.ul.2 → l.2 - u.2 = n.lr.1 - n.ul.1 →
    WF (rotateSubtree (n.withRect u l)) := by
  induction hn with
  | leaf ax ay cx cy avg h1 h2 =>
    intro u l hd1 hd2
    obtain ⟨ux, uy⟩ := u
    obtain ⟨lx, ly⟩ := l
    simp only [Node.ul_mk, Node.lr_mk] at hd1 hd2
    simp only [Node.withRect, Node.nw_mk, Node.ne_mk, Node.sw_mk, Node.se_mk, Node.avg_mk]
    rw [rotateSubtree]
    simp only [Node.isLeafB, Node.nw_mk, Node.ne_mk, Node.sw_mk, Node.se_mk,
      Option.isNone_none, Bool.and_self, if_true]
    exact WF.leaf ux uy lx ly avg (by omega) (by omega)
  | quad ax ay cx cy sx sy avg p1 p2 p3 p4 hx1 hx2 hy1 hy2 hnwu hnwl hneu hnel hswu hswl
      hseu hsel w1 w2 w3 w4 ih1 ih2 ih3 ih4 =>
    intro u l hd1 hd2
    obtain ⟨ux, uy⟩ := u
    obtain ⟨lx, ly⟩ := l
    simp only [Node.ul_mk, Node.lr_mk] at hd1 hd2
    simp only [Node.withRect, Node.nw_mk, Node.ne_mk, Node.sw_mk, Node.se_mk, Node.avg_mk,
      Node.ul_mk, Node.lr_mk]
    rw [rotateSubtree]
    simp only [Node.isLeafB, Node.nw_mk, Node.ne_mk, Node.sw_mk, Node.se_mk, Node.ul_mk,
      Node.lr_mk, Node.avg_mk, Option.isNone_some, Option.isNone_none, Bool.false_and,
      Bool.and_true, Bool.true_and, Bool.and_false, ow_some, oh_some, Node.w, Node.h,
      hnwu, hnwl, hneu, hnel, hswu, hswl, hseu, hsel]
    norm_num
    refine WF.quad ux uy lx ly (ux + (sy - 1 - ay + 1)) (uy + (cx - sx + 1)) avg
      _ _ _ _ ?_ ?_ ?_ ?_ ?_ ?_ ?_ ?_ ?_ ?_ ?_ ?_ ?_ ?_ ?_ ?_
    · omega
    · omega
    · omega
    · omega
    · simp only [rotateSubtree_ul, Node.withRect_ul, Prod.mk.injEq, and_true, true_and] <;> omega
    · simp only [rotateSubtree_lr, Node.withRect_lr, Prod.mk.injEq, and_true, true_and] <;> omega
    · simp only [rotateSubtree_ul, Node.withRect_ul, Prod.mk.injEq, and_true, true_and] <;> omega
    · simp only [rotateSubtree_lr, Node.withRect_lr, Prod.mk.injEq, and_true, true_and] <;> omega
    · simp only [rotateSubtree_ul, Node.withRect_ul, Prod.mk.injEq, and_true, true_and] <;> omega
    · simp only [rotateSubtree_lr, Node.withRect_lr, Prod.mk.injEq, and_true, true_and] <;> omega
    · simp only [rotateSubtree_ul, Node.withRect_ul, Prod.mk.injEq, and_true, true_and] <;> omega
    · simp only [rotateSubtree_lr, Node.withRect_lr, Prod.mk.injEq, and_true, true_and] <;> omega
    · exact ih2 _ _ (by simp [hneu, hnel] <;> omega) (by simp [hneu, hnel] <;> omega)
    · exact ih4 _ _ (by simp [hseu, hsel] <;> omega) (by simp [hseu, hsel] <;> omega)
    · exact ih1 _ _ (by simp [hnwu, hnwl] <;> omega) (by simp [hnwu, hnwl] <;> omega)
    · exact ih3 _ _ (by simp [hswu, hswl] <;> omega) (by simp [hswu, hswl] <;> omega)
  | horiz ax ay cx cy sx avg p1 p2 hx1 hx2 hy hnwu hnwl hneu hnel w1 w2 ih1 ih2 =>
    intro u l hd1 hd2
    obtain ⟨ux, uy⟩ := u
    obtain ⟨lx, ly⟩ := l
    simp only [Node.ul_mk, Node.lr_mk] at hd1 hd2
    simp only [Node.withRect, Node.nw_mk, Node.ne_mk, Node.sw_mk, Node.se_mk, Node.avg_mk,
      Node.ul_mk, Node.lr_mk]
    rw [rotateSubtree]
    simp only [Node.isLeafB, Node.nw_mk, Node.ne_mk, Node.sw_mk, Node.se_mk, Node.ul_mk,
      Node.lr_mk, Node.avg_mk, Option.isNone_some, Option.isNone_none, Bool.false_and,
      Bool.and_true, Bool.true_and, Bool.and_false, ow_some, oh_some, Node.w, Node.h,
      hnwu, hnwl, hneu, hnel]
    norm_num
    refine WF.vert ux uy lx ly (uy + (cx - sx + 1)) avg _ _ ?_ ?_ ?_ ?_ ?_ ?_ ?_ ?_ ?_
    · omega
    · omega
    · omega
    · simp only [rotateSubtree_ul, Node.withRect_ul, Prod.mk.injEq, and_true, true_and] <;> omega
    · simp only [rotateSubtree_lr, Node.withRect_lr, Prod.mk.injEq, and_true, true_and] <;> omega
    · simp only [rotateSubtree_ul, Node.withRect_ul, Prod.mk.injEq, and_true, true_and] <;> omega
    · simp only [rotateSubtree_lr, Node.withRect_lr, Prod.mk.injEq, and_true, true_and] <;> omega
    · exact ih2 _ _ (by simp [hneu, hnel] <;> omega) (by simp [hneu, hnel] <;> omega)
    · exact ih1 _ _ (by simp [hnwu, hnwl] <;> omega) (by simp [hnwu, hnwl] <;> omega)
  | vert ax ay cx cy sy avg p1 p3 hy1 hy2 hx hnwu hnwl hswu hswl w1 w3 ih1 ih3 =>
    intro u l hd1 hd2
    obtain ⟨ux, uy⟩ := u
    obtain ⟨lx, ly⟩ := l
    simp only [Node.ul_mk, Node.lr_mk] at hd1 hd2
    simp only [Node.withRect, Node.nw_mk, Node.ne_mk, Node.sw_mk, Node.se_mk, Node.avg_mk,
      Node.ul_mk, Node.lr_mk]
    rw [rotateSubtree]
    simp only [Node.isLeafB, Node.nw_mk, Node.ne_mk, Node.sw_mk, Node.se_mk, Node.ul_mk,
      Node.lr_mk, Node.avg_mk, Option.isNone_some, Option.isNone_none, Bool.false_and,
      Bool.and_true, Bool.true_and, Bool.and_false, ow_some, oh_some, Node.w, Node.h,
      hnwu, hnwl, hswu, hswl]
    norm_num
    refine WF.spair ux uy lx ly (ux + (sy - 1 - ay + 1)) avg _ _ ?_ ?_ ?_ ?_ ?_ ?_ ?_ ?_ ?_
    · omega
    · omega
    · omega
    · simp only [rotateSubtree_ul, Node.withRect_ul, Prod.mk.injEq, and_true, true_and] <;> omega
    · simp only [rotateSubtree_lr, Node.withRect_lr, Prod.mk.injEq, and_true, true_and] <;> omega
    · simp only [rotateSubtree_ul, Node.withRect_ul, Prod.mk.injEq, and_true, true_and] <;> omega
    · simp only [rotateSubtree_lr, Node.withRect_lr, Prod.mk.injEq, and_true, true_and] <;> omega
    · exact ih1 _ _ (by simp [hnwu, hnwl] <;> omega) (by simp [hnwu, hnwl] <;> omega)
    · exact ih3 _ _ (by simp [hswu, hswl] <;> omega) (by simp [hswu, hswl] <;> omega)
  | spair ax ay cx cy sx avg p3 p4 hx1 hx2 hy hswu hswl hseu hsel w3 w4 ih3 ih4 =>
    intro u l hd1 hd2
    obtain ⟨ux, uy⟩ := u
    obtain ⟨lx, ly⟩ := l
    simp only [Node.ul_mk, Node.lr_mk] at hd1 hd2
    simp only [Node.withRect, Node.nw_mk, Node.ne_mk, Node.sw_mk, Node.se_mk, Node.avg_mk,
      Node.ul_mk, Node.lr_mk]
    rw [rotateSubtree]
    simp only [Node.isLeafB, Node.nw_mk, Node.ne_mk, Node.sw_mk, Node.se_mk, Node.ul_mk,
      Node.lr_mk, Node.avg_mk, Option.isNone_some, Option.isNone_none, Bool.false_and,
      Bool.and_true, Bool.true_and, Bool.and_false, ow_some, oh_some, Node.w, Node.h,
      hswu, hswl, hseu, hsel]
    norm_num
    refine WF.epair ux uy lx ly (uy + (cx - sx + 1)) avg _ _ ?_ ?_ ?_ ?_ ?_ ?_ ?_ ?_ ?_
    · omega
    · omega
    · omega
    · simp only [rotateSubtree_ul, Node.withRect_ul, Prod.mk.injEq, and_true, true_and] <;> omega
    · simp only [rotateSubtree_lr, Node.withRect_lr, Prod.mk.injEq, and_true, true_and] <;> omega
    · simp only [rotateSubtree_ul, Node.withRect_ul, Prod.mk.injEq, and_true, true_and] <;> omega
    · simp only [rotateSubtree_lr, Node.withRect_lr, Prod.mk.injEq, and_true, true_and] <;> omega
    · exact ih4 _ _ (by simp [hseu, hsel] <;> omega) (by simp [hseu, hsel] <;> omega)
    · exact ih3 _ _ (by simp [hswu, hswl] <;> omega) (by simp [hswu, hswl] <;> omega)
  | epair ax ay cx cy sy avg p2 p4 hy1 hy2 hx hneu hnel hseu hsel w2 w4 ih2 ih4 =>
    intro u l hd1 hd2
    obtain ⟨ux, uy⟩ := u
    obtain ⟨lx, ly⟩ := l
    simp only [Node.ul_mk, Node.lr_mk] at hd1 hd2
    simp only [Node.withRect, Node.nw_mk, Node.ne_mk, Node.sw_mk, Node.se_mk, Node.avg_mk,
      Node.ul_mk, Node.lr_mk]
    rw [rotateSubtree]
    simp only [Node.isLeafB, Node.nw_mk, Node.ne_mk, Node.sw_mk, Node.se_mk, Node.ul_mk,
      Node.lr_mk, Node.avg_mk, Option.isNone_some, Option.isNone_none, Bool.false_and,
      Bool.and_true, Bool.true_and, Bool.and_false, ow_some, oh_some, Node.w, Node.h,
      hneu, hnel, hseu, hsel]
    norm_num
    refine WF.horiz ux uy lx ly (ux + (sy - 1 - ay + 1)) avg _ _ ?_ ?_ ?_ ?_ ?_ ?_ ?_ ?_ ?_
    · omega
    · omega
    · omega
    · simp only [rotateSubtree_ul, Node.withRect_ul, Prod.mk.injEq, and_true, true_and] <;> omega
    · simp only [rotateSubtree_lr, Node.withRect_lr, Prod.mk.injEq, and_true, true_and] <;> omega
    · simp only [rotateSubtree_ul, Node.withRect_ul, Prod.mk.injEq, and_true, true_and] <;> omega
    · simp only [rotateSubtree_lr, Node.withRect_lr, Prod.mk.injEq, and_true, true_and] <;> omega
    · exact ih2 _ _ (by simp [hneu, hnel] <;> omega) (by simp [hneu, hnel] <;> omega)
    · exact ih4 _ _ (by simp [hseu, hsel] <;> omega) (by simp [hseu, hsel] <;> omega)

/-- Pruning preserves well-formedness: collapsing a subtree to a leaf keeps
its rectangle, and the recursive case keeps every child's rectangle. -/
theorem wf_prune (wt : RGBA → RGBA → ℚ → Bool) (τ : ℚ) {n : Node} (hn : WF n) :
    WF (pruneNode wt τ n) := by
  induction hn with
  | leaf ax ay cx cy avg h1 h2 =>
    rw [pruneNode]
    simp only [Node.isLeafB, Node.nw_mk, Node.ne_mk, Node.sw_mk, Node.se_mk,
      Option.isNone_none, Bool.and_self, if_true]
    exact WF.leaf ax ay cx cy avg h1 h2
  | quad ax ay cx cy sx sy avg p1 p2 p3 p4 hx1 hx2 hy1 hy2 hnwu hnwl hneu hnel hswu hswl
      hseu hsel w1 w2 w3 w4 ih1 ih2 ih3 ih4 =>
    rw [pruneNode]
    simp only [Node.isLeafB, Node.nw_mk, Node.ne_mk, Node.sw_mk, Node.se_mk, Node.ul_mk,
      Node.lr_mk, Node.avg_mk, Option.isNone_some, Bool.false_and, if_false,
      Bool.and_false, deleteChildren]
    norm_num
    split
    · exact WF.leaf ax ay cx cy avg (by omega) (by omega)
    · exact WF.quad ax ay cx cy sx sy avg _ _ _ _ hx1 hx2 hy1 hy2
        (by simp [hnwu]) (by simp [hnwl]) (by simp [hneu]) (by simp [hnel])
        (by simp [hswu]) (by simp [hswl]) (by simp [hseu]) (by simp [hsel])
        ih1 ih2 ih3 ih4
  | horiz ax ay cx cy sx avg p1 p2 hx1 hx2 hy hnwu hnwl hneu hnel w1 w2 ih1 ih2 =>
    rw [pruneNode]
    simp only [Node.isLeafB, Node.nw_mk, Node.ne_mk, Node.sw_mk, Node.se_mk, Node.ul_mk,
      Node.lr_mk, Node.avg_mk, Option.isNone_some, Option.isNone_none, Bool.false_and,
      if_false, Bool.and_false, Bool.and_true, deleteChildren]
    norm_num
    norm_num
    split
    · exact WF.leaf ax ay cx cy avg (by omega) (by omega)
    · exact WF.horiz ax ay cx cy sx avg _ _ hx1 hx2 hy
        (by simp [hnwu]) (by simp [hnwl]) (by simp [hneu]) (by simp [hnel]) ih1 ih2
  | vert ax ay cx cy sy avg p1 p3 hy1 hy2 hx hnwu hnwl hswu hswl w1 w3 ih1 ih3 =>
    rw [pruneNode]
    simp only [Node.isLeafB, Node.nw_mk, Node.ne_mk, Node.sw_mk, Node.se_mk, Node.ul_mk,
      Node.lr_mk, Node.avg_mk, Option.isNone_some, Option.isNone_none, Bool.false_and,
      if_false, Bool.and_false, Bool.and_true, Bool.true_and, deleteChildren]
    norm_num
    norm_num
    split
    · exact WF.leaf ax ay cx cy avg (by omega) (by omega)
    · exact WF.vert ax ay cx cy sy avg _ _ hy1 hy2 hx
        (by simp [hnwu]) (by simp [hnwl]) (by simp [hswu]) (by simp [hswl]) ih1 ih3
  | spair ax ay cx cy sx avg p3 p4 hx1 hx2 hy hswu hswl hseu hsel w3 w4 ih3 ih4 =>
    rw [pruneNode]
    simp only [Node.isLeafB, Node.nw_mk, Node.ne_mk, Node.sw_mk, Node.se_mk, Node.ul_mk,
      Node.lr_mk, Node.avg_mk, Option.isNone_some, Option.isNone_none, Bool.false_and,
      if_false, Bool.and_false, Bool.and_true, Bool.true_and, deleteChildren]
    norm_num
    norm_num
    split
    · exact WF.leaf ax ay cx cy avg (by omega) (by omega)
    · exact WF.spair ax ay cx cy sx avg _ _ hx1 hx2 hy
        (by simp [hswu]) (by simp [hswl]) (by simp [hseu]) (by simp [hsel]) ih3 ih4
  | epair ax ay cx cy sy avg p2 p4 hy1 hy2 hx hneu hnel hseu hsel w2 w4 ih2 ih4 =>
    rw [pruneNode]
    simp only [Node.isLeafB, Node.nw_mk, Node.ne_mk, Node.sw_mk, Node.se_mk, Node.ul_mk,
      Node.lr_mk, Node.avg_mk, Option.isNone_some, Option.isNone_none, Bool.false_and,
      if_false, Bool.and_false, Bool.and_true, Bool.true_and, deleteChildren]
    norm_num
    norm_num
    split
    · exact WF.leaf ax ay cx cy avg (by omega) (by omega)
    · exact WF.epair ax ay cx cy sy avg _ _ hy1 hy2 hx
        (by simp [hneu]) (by simp [hnel]) (by simp [hseu]) (by simp [hsel]) ih2 ih4

@[simp] theorem assignColor_ul (n : Node) (mode : String) :
    (assignColor n mode).ul = n.ul := by
  rw [assignColor]; split_ifs <;> rfl

@[simp] theorem assignColor_lr (n : Node) (mode : String) :
    (assignColor n mode).lr = n.lr := by
  rw [assignColor]; split_ifs <;> rfl

@[simp] theorem assignColor_nw (n : Node) (mode : String) :
    (assignColor n mode).nw = n.nw := by
  rw [assignColor]; split_ifs <;> rfl

@[simp] theorem assignColor_ne (n : Node) (mode : String) :
    (assignColor n mode).ne = n.ne := by
  rw [assignColor]; split_ifs <;> rfl

@[simp] theorem assignColor_sw (n : Node) (mode : String) :
    (assignColor n mode).sw = n.sw := by
  rw [assignColor]; split_ifs <;> rfl

@[simp] theorem assignColor_se (n : Node) (mode : String) :
    (assignColor n mode).se = n.se := by
  rw [assignColor]; split_ifs <;> rfl

theorem assignColor_mk (n : Node) (mode : String) :
    ∃ av, assignColor n mode = Node.mk n.ul n.lr av n.nw n.ne n.sw n.se := by
  rw [assignColor]; split_ifs <;> exact ⟨_, rfl⟩

theorem wf_assignColor (n : Node) (mode : String)
    (h : ∀ av : RGBA, WF (Node.mk n.ul n.lr av n.nw n.ne n.sw n.se)) :
    WF (assignColor n mode) := by
  obtain ⟨av, hav⟩ := assignColor_mk n mode
  rw [hav]; exact h av

/-- The constructor produces a well-formed subtree over any rectangle given
by machine (`ℕ`) coordinates, and that subtree's stored rectangle is the
requested one. -/
theorem wf_build (img : Img) :
    ∀ (m : ℕ) (a b c d : ℕ), c - a + (d - b) ≤ m → a ≤ c → b ≤ d →
    WF (buildNode img (a, b) (c, d)) ∧
    (buildNode img (a, b) (c, d)).ul = ((a : ℤ), (b : ℤ)) ∧
    (buildNode img (a, b) (c, d)).lr = ((c : ℤ), (d : ℤ)) := by
  intro m
  induction m using Nat.strong_induction_on with
  | _ m ih =>
    intro a b c d hm ha hb
    rw [buildNode]
    simp only []
    split_ifs with h1 h2 h3
    · exact ⟨WF.leaf _ _ _ _ _ (by omega) (by omega), rfl, rfl⟩
    · -- vertical strip: x = 1, y ≥ 2
      obtain ⟨wf1, u1, l1⟩ := ih (m - 1) (by omega) a b
        (a + (c - a + 1 + 1) / 2 - 1) (b + (d - b + 1 + 1) / 2 - 1)
        (by omega) (by omega) (by omega)
      obtain ⟨wf3, u3, l3⟩ := ih (m - 1) (by omega) a (b + (d - b + 1 + 1) / 2)
        (a + (c - a + 1 + 1) / 2 - 1) d (by omega) (by omega) (by omega)
      refine ⟨wf_assignColor _ _ ?_, by simp, by simp⟩
      intro av
      simp only [Node.ul_mk, Node.lr_mk, Node.nw_mk, Node.ne_mk, Node.sw_mk, Node.se_mk]
      refine WF.vert _ _ _ _ (((b + (d - b + 1 + 1) / 2 : ℕ) : ℤ)) av _ _
        (by omega) (by omega) (by omega) u1 ?_ u3 ?_ wf1 wf3
      · simp only [l1, Prod.mk.injEq, and_true, true_and] <;> omega
      · simp only [l3, Prod.mk.injEq, and_true, true_and] <;> omega
    · -- horizontal strip: y = 1, x ≥ 2
      obtain ⟨wf1, u1, l1⟩ := ih (m - 1) (by omega) a b
        (a + (c - a + 1 + 1) / 2 - 1) (b + (d - b + 1 + 1) / 2 - 1)
        (by omega) (by omega) (by omega)
      obtain ⟨wf2, u2, l2⟩ := ih (m - 1) (by omega) (a + (c - a + 1 + 1) / 2) b
        c (b + (d - b + 1 + 1) / 2 - 1) (by omega) (by omega) (by omega)
      refine ⟨wf_assignColor _ _ ?_, by simp, by simp⟩
      intro av
      simp only [Node.ul_mk, Node.lr_mk, Node.nw_mk, Node.ne_mk, Node.sw_mk, Node.se_mk]
      refine WF.horiz _ _ _ _ (((a + (c - a + 1 + 1) / 2 : ℕ) : ℤ)) av _ _
        (by omega) (by omega) (by omega) u1 ?_ u2 ?_ wf1 wf2
      · simp only [l1, Prod.mk.injEq, and_true, true_and] <;> omega
      · simp only [l2, Prod.mk.injEq, and_true, true_and] <;> omega
    · -- full quadrant split: x ≥ 2, y ≥ 2
      obtain ⟨wf1, u1, l1⟩ := ih (m - 1) (by omega) a b
        (a + (c - a + 1 + 1) / 2 - 1) (b + (d - b + 1 + 1) / 2 - 1)
        (by omega) (by omega) (by omega)
      obtain ⟨wf2, u2, l2⟩ := ih (m - 1) (by omega) (a + (c - a + 1 + 1) / 2) b
        c (b + (d - b + 1 + 1) / 2 - 1) (by omega) (by omega) (by omega)
      obtain ⟨wf3, u3, l3⟩ := ih (m - 1) (by omega) a (b + (d - b + 1 + 1) / 2)
        (a + (c - a + 1 + 1) / 2 - 1) d (by omega) (by omega) (by omega)
      obtain ⟨wf4, u4, l4⟩ := ih (m - 1) (by omega) (a + (c - a + 1 + 1) / 2)
        (b + (d - b + 1 + 1) / 2) c d (by omega) (by omega) (by omega)
      refine ⟨wf_assignColor _ _ ?_, by simp, by simp⟩
      intro av
      simp only [Node.ul_mk, Node.lr_mk, Node.nw_mk, Node.ne_mk, Node.sw_mk, Node.se_mk]
      refine WF.quad _ _ _ _ (((a + (c - a + 1 + 1) / 2 : ℕ) : ℤ))
        (((b + (d - b + 1 + 1) / 2 : ℕ) : ℤ)) av _ _ _ _
        (by omega) (by omega) (by omega) (by omega) u1 ?_ u2 ?_ u3 ?_ u4 ?_ wf1 wf2 wf3 wf4
      · simp only [l1, Prod.mk.injEq, and_true, true_and] <;> omega
      · simp only [l2, Prod.mk.injEq, and_true, true_and] <;> omega
      · simp only [l3, Prod.mk.injEq, and_true, true_and] <;> omega
      · simp only [l4, Prod.mk.injEq, and_true, true_and] <;> omega

/-- Every tree reachable through the public interface is well-formed, keeps
`upLeft = (0,0)` at the root, and its root rectangle matches the stored
width/height. -/
theorem reachable_wft {t : QTree} (h : Reachable t) : WFT t := by
  induction h with
  | build img hw hh =>
    obtain ⟨wf, hu, hl⟩ := wf_build img (img.w - 1 + (img.h - 1)) 0 0 (img.w - 1) (img.h - 1)
      le_rfl (by omega) (by omega)
    refine ⟨wf, ?_, ?_, hw, hh⟩
    · simpa using hu
    · rw [QTree.ofImage] at *
      simp only [hl, Prod.mk.injEq]
      omega
  | prune t wt τ ht ih =>
    obtain ⟨wf, hu, hl, hw, hh⟩ := ih
    exact ⟨wf_prune wt τ wf, by simpa [QTree.pruneAt] using hu,
      by simpa [QTree.pruneAt] using hl, hw, hh⟩
  | flip t ht ih =>
    obtain ⟨wf, hu, hl, hw, hh⟩ := ih
    refine ⟨?_, by simpa [QTree.flipH] using hu, by simpa [QTree.flipH] using hl, hw, hh⟩
    have := wf_flip_shift wf t.root.ul t.root.lr rfl rfl (by omega)
    rwa [Node.withRect_self] at this
  | rot t ht ih =>
    obtain ⟨wf, hu, hl, hw, hh⟩ := ih
    refine ⟨?_, ?_, ?_, hh, hw⟩
    · exact wf_rot wf t.root.ul (t.root.lr.2, t.root.lr.1) (by simp [hu]) (by simp [hu])
    · simpa [QTree.rotCCW] using hu
    · simp [QTree.rotCCW, hl]

/-- In a well-formed subtree the leaves lie inside the subtree's rectangle,
are pairwise disjoint, and cover the rectangle. -/
theorem wf_leafNodes {n : Node} (hn : WF n) :
    (∀ q ∈ leafNodes n, n.ul.1 ≤ q.ul.1 ∧ q.lr.1 ≤ n.lr.1 ∧ n.ul.2 ≤ q.ul.2 ∧
      q.lr.2 ≤ n.lr.2 ∧ q.ul.1 ≤ q.lr.1 ∧ q.ul.2 ≤ q.lr.2) ∧
    List.Pairwise (fun q r => ∀ a b : ℤ, inRect q.ul q.lr (a, b) → ¬ inRect r.ul r.lr (a, b))
      (leafNodes n) ∧
    (∀ a b : ℤ, inRect n.ul n.lr (a, b) → ∃ q ∈ leafNodes n, inRect q.ul q.lr (a, b)) := by
  induction hn with
  | leaf ax ay cx cy avg h1 h2 =>
    rw [leafNodes]
    simp only [Node.isLeafB, Node.nw_mk, Node.ne_mk, Node.sw_mk, Node.se_mk,
      Option.isNone_none, Bool.and_self, if_true]
    refine ⟨?_, ?_, ?_⟩
    · intro q hq
      simp only [List.mem_singleton] at hq
      subst hq
      simp only [Node.ul_mk, Node.lr_mk]
      omega
    · simp
    · intro a b hp
      exact ⟨_, List.mem_singleton_self _, hp⟩
  | quad ax ay cx cy sx sy avg p1 p2 p3 p4 hx1 hx2 hy1 hy2 hnwu hnwl hneu hnel hswu hswl
      hseu hsel w1 w2 w3 w4 ih1 ih2 ih3 ih4 =>
    obtain ⟨ihc1, ihp1, ihv1⟩ := ih1
    obtain ⟨ihc2, ihp2, ihv2⟩ := ih2
    obtain ⟨ihc3, ihp3, ihv3⟩ := ih3
    obtain ⟨ihc4, ihp4, ihv4⟩ := ih4
    rw [leafNodes]
    simp only [Node.isLeafB, Node.nw_mk, Node.ne_mk, Node.sw_mk, Node.se_mk, Node.ul_mk,
      Node.lr_mk, Option.isNone_some, Bool.false_and, Bool.and_false, Bool.false_eq_true,
      if_false]
    refine ⟨?_, ?_, ?_⟩
    · intro q hq
      simp only [List.mem_append] at hq
      rcases hq with ((h | h) | h) | h
      · have := ihc1 q h; rw [hnwu, hnwl] at this; simp at this; omega
      · have := ihc2 q h; rw [hneu, hnel] at this; simp at this; omega
      · have := ihc3 q h; rw [hswu, hswl] at this; simp at this; omega
      · have := ihc4 q h; rw [hseu, hsel] at this; simp at this; omega
    · simp only [List.pairwise_append, List.mem_append]
      refine ⟨⟨⟨ihp1, ihp2, ?_⟩, ihp3, ?_⟩, ihp4, ?_⟩
      · intro q hq r hr a b hp hp2
        have h1 := ihc1 q hq; have h2 := ihc2 r hr
        rw [hnwu, hnwl] at h1; rw [hneu, hnel] at h2
        simp at h1 h2
        simp only [inRect] at hp hp2
        omega
      · intro q hq r hr a b hp hp2
        have h2 := ihc3 r hr
        rw [hswu, hswl] at h2
        simp at h2
        simp only [inRect] at hp hp2
        rcases hq with hq | hq
        · have h1 := ihc1 q hq; rw [hnwu, hnwl] at h1; simp at h1; omega
        · have h1 := ihc2 q hq; rw [hneu, hnel] at h1; simp at h1; omega
      · intro q hq r hr a b hp hp2
        have h2 := ihc4 r hr
        rw [hseu, hsel] at h2
        simp at h2
        simp only [inRect] at hp hp2
        rcases hq with (hq | hq) | hq
        · have h1 := ihc1 q hq; rw [hnwu, hnwl] at h1; simp at h1; omega
        · have h1 := ihc2 q hq; rw [hneu, hnel] at h1; simp at h1; omega
        · have h1 := ihc3 q hq; rw [hswu, hswl] at h1; simp at h1; omega
    · intro a b hp
      simp only [inRect] at hp
      simp only [List.mem_append]
      by_cases hpx : a < sx
      · by_cases hpy : b < sy
        · obtain ⟨q, hq, hqp⟩ := ihv1 a b (by rw [hnwu, hnwl]; simp [inRect]; omega)
          exact ⟨q, by tauto, hqp⟩
        · obtain ⟨q, hq, hqp⟩ := ihv3 a b (by rw [hswu, hswl]; simp [inRect]; omega)
          exact ⟨q, by tauto, hqp⟩
      · by_cases hpy : b < sy
        · obtain ⟨q, hq, hqp⟩ := ihv2 a b (by rw [hneu, hnel]; simp [inRect]; omega)
          exact ⟨q, by tauto, hqp⟩
        · obtain ⟨q, hq, hqp⟩ := ihv4 a b (by rw [hseu, hsel]; simp [inRect]; omega)
          exact ⟨q, by tauto, hqp⟩
  | horiz ax ay cx cy sx avg p1 p2 hx1 hx2 hy hnwu hnwl hneu hnel w1 w2 ih1 ih2 =>
    obtain ⟨ihc1, ihp1, ihv1⟩ := ih1
    obtain ⟨ihc2, ihp2, ihv2⟩ := ih2
    rw [leafNodes]
    simp only [Node.isLeafB, Node.nw_mk, Node.ne_mk, Node.sw_mk, Node.se_mk, Node.ul_mk,
      Node.lr_mk, Option.isNone_some, Option.isNone_none, Bool.false_and, Bool.and_false,
      Bool.and_true, Bool.false_eq_true, if_false, List.append_nil]
    refine ⟨?_, ?_, ?_⟩
    · intro q hq
      simp only [List.mem_append] at hq
      rcases hq with h | h
      · have := ihc1 q h; rw [hnwu, hnwl] at this; simp at this; omega
      · have := ihc2 q h; rw [hneu, hnel] at this; simp at this; omega
    · simp only [List.pairwise_append]
      refine ⟨ihp1, ihp2, ?_⟩
      intro q hq r hr a b hp hp2
      have h1 := ihc1 q hq; have h2 := ihc2 r hr
      rw [hnwu, hnwl] at h1; rw [hneu, hnel] at h2
      simp at h1 h2
      simp only [inRect] at hp hp2
      omega
    · intro a b hp
      simp only [inRect] at hp
      simp only [List.mem_append]
      by_cases hpx : a < sx
      · obtain ⟨q, hq, hqp⟩ := ihv1 a b (by rw [hnwu, hnwl]; simp [inRect]; omega)
        exact ⟨q, by tauto, hqp⟩
      · obtain ⟨q, hq, hqp⟩ := ihv2 a b (by rw [hneu, hnel]; simp [inRect]; omega)
        exact ⟨q, by tauto, hqp⟩
  | vert ax ay cx cy sy avg p1 p3 hy1 hy2 hx hnwu hnwl hswu hswl w1 w3 ih1 ih3 =>
    obtain ⟨ihc1, ihp1, ihv1⟩ := ih1
    obtain ⟨ihc3, ihp3, ihv3⟩ := ih3
    rw [leafNodes]
    simp only [Node.isLeafB, Node.nw_mk, Node.ne_mk, Node.sw_mk, Node.se_mk, Node.ul_mk,
      Node.lr_mk, Option.isNone_some, Option.isNone_none, Bool.false_and, Bool.and_false,
      Bool.and_true, Bool.true_and, Bool.false_eq_true, if_false, List.append_nil,
      List.nil_append]
    refine ⟨?_, ?_, ?_⟩
    · intro q hq
      simp only [List.mem_append] at hq
      rcases hq with h | h
      · have := ihc1 q h; rw [hnwu, hnwl] at this; simp at this; omega
      · have := ihc3 q h; rw [hswu, hswl] at this; simp at this; omega
    · simp only [List.pairwise_append]
      refine ⟨ihp1, ihp3, ?_⟩
      intro q hq r hr a b hp hp2
      have h1 := ihc1 q hq; have h2 := ihc3 r hr
      rw [hnwu, hnwl] at h1; rw [hswu, hswl] at h2
      simp at h1 h2
      simp only [inRect] at hp hp2
      omega
    · intro a b hp
      simp only [inRect] at hp
      simp only [List.mem_append]
      by_cases hpy : b < sy
      · obtain ⟨q, hq, hqp⟩ := ihv1 a b (by rw [hnwu, hnwl]; simp [inRect]; omega)
        exact ⟨q, by tauto, hqp⟩
      · obtain ⟨q, hq, hqp⟩ := ihv3 a b (by rw [hswu, hswl]; simp [inRect]; omega)
        exact ⟨q, by tauto, hqp⟩
  | spair ax ay cx cy sx avg p3 p4 hx1 hx2 hy hswu hswl hseu hsel w3 w4 ih3 ih4 =>
    obtain ⟨ihc3, ihp3, ihv3⟩ := ih3
    obtain ⟨ihc4, ihp4, ihv4⟩ := ih4
    rw [leafNodes]
    simp only [Node.isLeafB, Node.nw_mk, Node.ne_mk, Node.sw_mk, Node.se_mk, Node.ul_mk,
      Node.lr_mk, Option.isNone_some, Option.isNone_none, Bool.false_and, Bool.and_false,
      Bool.and_true, Bool.true_and, Bool.false_eq_true, if_false, List.append_nil,
      List.nil_append]
    refine ⟨?_, ?_, ?_⟩
    · intro q hq
      simp only [List.mem_append] at hq
      rcases hq with h | h
      · have := ihc3 q h; rw [hswu, hswl] at this; simp at this; omega
      · have := ihc4 q h; rw [hseu, hsel] at this; simp at this; omega
    · simp only [List.pairwise_append]
      refine ⟨ihp3, ihp4, ?_⟩
      intro q hq r hr a b hp hp2
      have h1 := ihc3 q hq; have h2 := ihc4 r hr
      rw [hswu, hswl] at h1; rw [hseu, hsel] at h2
      simp at h1 h2
      simp only [inRect] at hp hp2
      omega
    · intro a b hp
      simp only [inRect] at hp
      simp only [List.mem_append]
      by_cases hpx : a < sx
      · obtain ⟨q, hq, hqp⟩ := ihv3 a b (by rw [hswu, hswl]; simp [inRect]; omega)
        exact ⟨q, by tauto, hqp⟩
      · obtain ⟨q, hq, hqp⟩ := ihv4 a b (by rw [hseu, hsel]; simp [inRect]; omega)
        exact ⟨q, by tauto, hqp⟩
  | epair ax ay cx cy sy avg p2 p4 hy1 hy2 hx hneu hnel hseu hsel w2 w4 ih2 ih4 =>
    obtain ⟨ihc2, ihp2, ihv2⟩ := ih2
    obtain ⟨ihc4, ihp4, ihv4⟩ := ih4
    rw [leafNodes]
    simp only [Node.isLeafB, Node.nw_mk, Node.ne_mk, Node.sw_mk, Node.se_mk, Node.ul_mk,
      Node.lr_mk, Option.isNone_some, Option.isNone_none, Bool.false_and, Bool.and_false,
      Bool.and_true, Bool.true_and, Bool.false_eq_true, if_false, List.append_nil,
      List.nil_append]
    refine ⟨?_, ?_, ?_⟩
    · intro q hq
      simp only [List.mem_append] at hq
      rcases hq with h | h
      · have := ihc2 q h; rw [hneu, hnel] at this; simp at this; omega
      · have := ihc4 q h; rw [hseu, hsel] at this; simp at this; omega
    · simp only [List.pairwise_append]
      refine ⟨ihp2, ihp4, ?_⟩
      intro q hq r hr a b hp hp2
      have h1 := ihc2 q hq; have h2 := ihc4 r hr
      rw [hneu, hnel] at h1; rw [hseu, hsel] at h2
      simp at h1 h2
      simp only [inRect] at hp hp2
      omega
    · intro a b hp
      simp only [inRect] at hp
      simp only [List.mem_append]
      by_cases hpy : b < sy
      · obtain ⟨q, hq, hqp⟩ := ihv2 a b (by rw [hneu, hnel]; simp [inRect]; omega)
        exact ⟨q, by tauto, hqp⟩
      · obtain ⟨q, hq, hqp⟩ := ihv4 a b (by rw [hseu, hsel]; simp [inRect]; omega)
        exact ⟨q, by tauto, hqp⟩

theorem flipNode_quad (ux uy lx ly w1 h1 : ℤ) (avg : RGBA) (p1 p2 p3 p4 : Node)
    (hw1 : w1 = p1.lr.1 - p1.ul.1 + 1) (hh1 : h1 = p1.lr.2 - p1.ul.2 + 1) :
    flipNode (Node.mk (ux, uy) (lx, ly) avg (some p1) (some p2) (some p3) (some p4)) =
      Node.mk (ux, uy) (lx, ly) avg
        (some (flipNode (p2.withRect (ux, uy) (lx - w1, uy + h1 - 1))))
        (some (flipNode (p1.withRect (lx - w1 + 1, uy) (lx, uy + h1 - 1))))
        (some (flipNode (p4.withRect (ux, uy + h1) (lx - w1, ly))))
        (some (flipNode (p3.withRect (lx - w1 + 1, uy + h1) (lx, ly)))) := by
  subst hw1 hh1
  rw [flipNode]
  simp [Node.isLeafB, ow, oh, Node.w, Node.h]

theorem flipNode_horiz (ux uy lx ly w1 h1 : ℤ) (avg : RGBA) (p1 p2 : Node)
    (hw1 : w1 = p1.lr.1 - p1.ul.1 + 1) (hh1 : h1 = p1.lr.2 - p1.ul.2 + 1) :
    flipNode (Node.mk (ux, uy) (lx, ly) avg (some p1) (some p2) none none) =
      Node.mk (ux, uy) (lx, ly) avg
        (some (flipNode (p2.withRect (ux, uy) (lx - w1, uy + h1 - 1))))
        (some (flipNode (p1.withRect (lx - w1 + 1, uy) (lx, uy + h1 - 1))))
        none none := by
  subst hw1 hh1
  rw [flipNode]
  simp [Node.isLeafB, ow, oh, Node.w, Node.h]

theorem flipNode_vert (ux uy lx ly w1 h1 : ℤ) (avg : RGBA) (p1 p3 : Node)
    (hw1 : w1 = p1.lr.1 - p1.ul.1 + 1) (hh1 : h1 = p1.lr.2 - p1.ul.2 + 1) :
    flipNode (Node.mk (ux, uy) (lx, ly) avg (some p1) none (some p3) none) =
      Node.mk (ux, uy) (lx, ly) avg
        none
        (some (flipNode (p1.withRect (lx - w1 + 1, uy) (lx, uy + h1 - 1))))
        none
        (some (flipNode (p3.withRect (lx - w1 + 1, uy + h1) (lx, ly)))) := by
  subst hw1 hh1
  rw [flipNode]
  simp [Node.isLeafB, ow, oh, Node.w, Node.h]

theorem flipNode_epair (ux uy lx ly w1 h1 : ℤ) (avg : RGBA) (p2 p4 : Node)
    (hw1 : w1 = (lx - ux + 1) - (p2.lr.1 - p2.ul.1 + 1)) (hh1 : h1 = p2.lr.2 - p2.ul.2 + 1) :
    flipNode (Node.mk (ux, uy) (lx, ly) avg none (some p2) none (some p4)) =
      Node.mk (ux, uy) (lx, ly) avg
        (some (flipNode (p2.withRect (ux, uy) (lx - w1, uy + h1 - 1))))
        none
        (some (flipNode (p4.withRect (ux, uy + h1) (lx - w1, ly))))
        none := by
  subst hw1 hh1
  rw [flipNode]
  simp [Node.isLeafB, ow, oh, Node.w, Node.h]

theorem flipNode_spair (ux uy lx ly w1 h1 : ℤ) (avg : RGBA) (p3 p4 : Node)
    (hw1 : w1 = p3.lr.1 - p3.ul.1 + 1) (hh1 : h1 = (ly - uy + 1) - (p3.lr.2 - p3.ul.2 + 1)) :
    flipNode (Node.mk (ux, uy) (lx, ly) avg none none (some p3) (some p4)) =
      Node.mk (ux, uy) (lx, ly) avg
        none
        none
        (some (flipNode (p4.withRect (ux, uy + h1) (lx - w1, ly))))
        (some (flipNode (p3.withRect (lx - w1 + 1, uy + h1) (lx, ly)))) := by
  subst hw1 hh1
  rw [flipNode]
  simp [Node.isLeafB, ow, oh, Node.w, Node.h]

theorem rotateSubtree_quad (ux uy lx ly w2 h1 : ℤ) (avg : RGBA) (p1 p2 p3 p4 : Node)
    (hw2 : w2 = p2.lr.1 - p2.ul.1 + 1) (hh1 : h1 = p1.lr.2 - p1.ul.2 + 1) :
    rotateSubtree (Node.mk (ux, uy) (lx, ly) avg (some p1) (some p2) (some p3) (some p4)) =
      Node.mk (ux, uy) (lx, ly) avg
        (some (rotateSubtree (p2.withRect (ux, uy) (ux + h1 - 1, uy + w2 - 1))))
        (some (rotateSubtree (p4.withRect (ux + h1, uy) (lx, uy + w2 - 1))))
        (some (rotateSubtree (p1.withRect (ux, uy + w2) (ux + h1 - 1, ly))))
        (some (rotateSubtree (p3.withRect (ux + h1, uy + w2) (lx, ly)))) := by
  subst hw2 hh1
  rw [rotateSubtree]
  simp [Node.isLeafB, ow, oh, Node.w, Node.h]

theorem rotateSubtree_horiz (ux uy lx ly w2 h1 : ℤ) (avg : RGBA) (p1 p2 : Node)
    (hw2 : w2 = p2.lr.1 - p2.ul.1 + 1) (hh1 : h1 = p1.lr.2 - p1.ul.2 + 1) :
    rotateSubtree (Node.mk (ux, uy) (lx, ly) avg (some p1) (some p2) none none) =
      Node.mk (ux, uy) (lx, ly) avg
        (some (rotateSubtree (p2.withRect (ux, uy) (ux + h1 - 1, uy + w2 - 1))))
        none
        (some (rotateSubtree (p1.withRect (ux, uy + w2) (ux + h1 - 1, ly))))
        none := by
  subst hw2 hh1
  rw [rotateSubtree]
  simp [Node.isLeafB, ow, oh, Node.w, Node.h]

theorem rotateSubtree_vert (ux uy lx ly w2 h1 : ℤ) (avg : RGBA) (p1 p3 : Node)
    (hw2 : w2 = (ly - uy + 1) - (p1.lr.1 - p1.ul.1 + 1)) (hh1 : h1 = p1.lr.2 - p1.ul.2 + 1) :
    rotateSubtree (Node.mk (ux, uy) (lx, ly) avg (some p1) none (some p3) none) =
      Node.mk (ux, uy) (lx, ly) avg
        none
        none
        (some (rotateSubtree (p1.withRect (ux, uy + w2) (ux + h1 - 1, ly))))
        (some (rotateSubtree (p3.withRect (ux + h1, uy + w2) (lx, ly)))) := by
  subst hw2 hh1
  rw [rotateSubtree]
  simp [Node.isLeafB, ow, oh, Node.w, Node.h]

theorem rotateSubtree_spair (ux uy lx ly w2 h1 : ℤ) (avg : RGBA) (p3 p4 : Node)
    (hw2 : w2 = p4.lr.1 - p4.ul.1 + 1) (hh1 : h1 = (lx - ux + 1) - (p3.lr.2 - p3.ul.2 + 1)) :
    rotateSubtree (Node.mk (ux, uy) (lx, ly) avg none none (some p3) (some p4)) =
      Node.mk (ux, uy) (lx, ly) avg
        none
        (some (rotateSubtree (p4.withRect (ux + h1, uy) (lx, uy + w2 - 1))))
        none
        (some (rotateSubtree (p3.withRect (ux + h1, uy + w2) (lx, ly)))) := by
  subst hw2 hh1
  rw [rotateSubtree]
  simp [Node.isLeafB, ow, oh, Node.w, Node.h]

theorem rotateSubtree_epair (ux uy lx ly w2 h1 : ℤ) (avg : RGBA) (p2 p4 : Node)
    (hw2 : w2 = p2.lr.1 - p2.ul.1 + 1) (hh1 : h1 = p2.lr.2 - p2.ul.2 + 1) :
    rotateSubtree (Node.mk (ux, uy) (lx, ly) avg none (some p2) none (some p4)) =
      Node.mk (ux, uy) (lx, ly) avg
        (some (rotateSubtree (p2.withRect (ux, uy) (ux + h1 - 1, uy + w2 - 1))))
        (some (rotateSubtree (p4.withRect (ux + h1, uy) (lx, uy + w2 - 1))))
        none
        none := by
  subst hw2 hh1
  rw [rotateSubtree]
  simp [Node.isLeafB, ow, oh, Node.w, Node.h]

theorem flipNode_leaf (ux uy lx ly : ℤ) (avg : RGBA) :
    flipNode (Node.mk (ux, uy) (lx, ly) avg none none none none) =
      Node.mk (ux, uy) (lx, ly) avg none none none none := by
  rw [flipNode]
  simp [Node.isLeafB]

theorem rotateSubtree_leaf (ux uy lx ly : ℤ) (avg : RGBA) :
    rotateSubtree (Node.mk (ux, uy) (lx, ly) avg none none none none) =
      Node.mk (ux, uy) (lx, ly) avg none none none none := by
  rw [rotateSubtree]
  simp [Node.isLeafB]

theorem flip2_step {p : Node}
    (IH : ∀ u l : ℤ × ℤ, u.2 = p.ul.2 → l.2 = p.lr.2 → u.1 - p.ul.1 = l.1 - p.lr.1 →
      flipNode ((flipNode (p.withRect u l)).withRect p.ul p.lr) = p)
    (u l v w : ℤ × ℤ)
    (hu : u.2 = p.ul.2) (hl : l.2 = p.lr.2) (hs : u.1 - p.ul.1 = l.1 - p.lr.1)
    (hv : v = p.ul) (hw : w = p.lr) :
    some (flipNode ((flipNode (p.withRect u l)).withRect v w)) = some p := by
  rw [hv, hw]; exact congrArg some (IH u l hu hl hs)

/-- `FlipNode` is an involution on well-formed subtrees, up to the horizontal
repositioning the parent performs before recursing: flipping the repositioned
node and reimposing the original rectangle on the result, then flipping
again, restores the original node exactly. -/
theorem flip_flip_shift {n : Node} (hn : WF n) :
    ∀ u l : ℤ × ℤ, u.2 = n.ul.2 → l.2 = n.lr.2 → u.1 - n.ul.1 = l.1 - n.lr.1 →
    flipNode ((flipNode (n.withRect u l)).withRect n.ul n.lr) = n := by
  induction hn with
  | leaf ax ay cx cy avg h1 h2 =>
    intro u l hu hl hs
    obtain ⟨ux, uy⟩ := u
    obtain ⟨lx, ly⟩ := l
    simp only [Node.ul_mk, Node.lr_mk] at hu hl hs
    subst hu hl
    simp only [Node.withRect, Node.nw_mk, Node.ne_mk, Node.sw_mk, Node.se_mk, Node.avg_mk,
      Node.ul_mk, Node.lr_mk]
    rw [flipNode_leaf]
    simp only [Node.withRect, Node.nw_mk, Node.ne_mk, Node.sw_mk, Node.se_mk, Node.avg_mk,
      Node.ul_mk, Node.lr_mk]
    rw [flipNode_leaf]
  | quad ax ay cx cy sx sy avg p1 p2 p3 p4 hx1 hx2 hy1 hy2 hnwu hnwl hneu hnel hswu hswl
      hseu hsel w1 w2 w3 w4 ih1 ih2 ih3 ih4 =>
    intro u l hu hl hs
    obtain ⟨ux, uy⟩ := u
    obtain ⟨lx, ly⟩ := l
    simp only [Node.ul_mk, Node.lr_mk] at hu hl hs
    subst hu hl
    simp only [Node.withRect, Node.nw_mk, Node.ne_mk, Node.sw_mk, Node.se_mk, Node.avg_mk,
      Node.ul_mk, Node.lr_mk]
    rw [flipNode_quad ux uy lx ly (sx - ax) (sy - uy) avg p1 p2 p3 p4
      (by simp [hnwu, hnwl] <;> omega) (by simp [hnwu, hnwl] <;> omega)]
    simp only [Node.withRect, Node.nw_mk, Node.ne_mk, Node.sw_mk, Node.se_mk, Node.avg_mk,
      Node.ul_mk, Node.lr_mk]
    rw [flipNode_quad ax uy cx ly (cx - sx + 1) (sy - uy) avg _ _ _ _
      (by simp <;> omega) (by simp <;> omega)]
    congr 1
    · exact flip2_step ih1 _ _ _ _ (by simp [hnwu]) (by simp [hnwl] <;> omega)
        (by simp [hnwu, hnwl] <;> omega) (by simp [hnwu] <;> omega)
        (by simp [hnwl, Prod.mk.injEq] <;> omega)
    · exact flip2_step ih2 _ _ _ _ (by simp [hneu]) (by simp [hnel] <;> omega)
        (by simp [hneu, hnel] <;> omega) (by simp [hneu, Prod.mk.injEq] <;> omega)
        (by simp [hnel, Prod.mk.injEq] <;> omega)
    · exact flip2_step ih3 _ _ _ _ (by simp [hswu] <;> omega) (by simp [hswl] <;> omega)
        (by simp [hswu, hswl] <;> omega) (by simp [hswu, Prod.mk.injEq] <;> omega)
        (by simp [hswl, Prod.mk.injEq] <;> omega)
    · exact flip2_step ih4 _ _ _ _ (by simp [hseu] <;> omega) (by simp [hsel] <;> omega)
        (by simp [hseu, hsel] <;> omega) (by simp [hseu, Prod.mk.injEq] <;> omega)
        (by simp [hsel, Prod.mk.injEq] <;> omega)
  | horiz ax ay cx cy sx avg p1 p2 hx1 hx2 hy hnwu hnwl hneu hnel w1 w2 ih1 ih2 =>
    intro u l hu hl hs
    obtain ⟨ux, uy⟩ := u
    obtain ⟨lx, ly⟩ := l
    simp only [Node.ul_mk, Node.lr_mk] at hu hl hs
    subst hu hl
    simp only [Node.withRect, Node.nw_mk, Node.ne_mk, Node.sw_mk, Node.se_mk, Node.avg_mk,
      Node.ul_mk, Node.lr_mk]
    rw [flipNode_horiz ux uy lx ly (sx - ax) (ly - uy + 1) avg p1 p2
      (by simp [hnwu, hnwl] <;> omega) (by simp [hnwu, hnwl] <;> omega)]
    simp only [Node.withRect, Node.nw_mk, Node.ne_mk, Node.sw_mk, Node.se_mk, Node.avg_mk,
      Node.ul_mk, Node.lr_mk]
    rw [flipNode_horiz ax uy cx ly (cx - sx + 1) (ly - uy + 1) avg _ _
      (by simp <;> omega) (by simp <;> omega)]
    congr 1
    · exact flip2_step ih1 _ _ _ _ (by simp [hnwu]) (by simp [hnwl] <;> omega)
        (by simp [hnwu, hnwl] <;> omega) (by simp [hnwu] <;> omega)
        (by simp [hnwl, Prod.mk.injEq] <;> omega)
    · exact flip2_step ih2 _ _ _ _ (by simp [hneu]) (by simp [hnel] <;> omega)
        (by simp [hneu, hnel] <;> omega) (by simp [hneu, Prod.mk.injEq] <;> omega)
        (by simp [hnel, Prod.mk.injEq] <;> omega)
  | vert ax ay cx cy sy avg p1 p3 hy1 hy2 hx hnwu hnwl hswu hswl w1 w3 ih1 ih3 =>
    intro u l hu hl hs
    obtain ⟨ux, uy⟩ := u
    obtain ⟨lx, ly⟩ := l
    simp only [Node.ul_mk, Node.lr_mk] at hu hl hs
    subst hu hl
    simp only [Node.withRect, Node.nw_mk, Node.ne_mk, Node.sw_mk, Node.se_mk, Node.avg_mk,
      Node.ul_mk, Node.lr_mk]
    rw [flipNode_vert ux uy lx ly (cx - ax + 1) (sy - uy) avg p1 p3
      (by simp [hnwu, hnwl] <;> omega) (by simp [hnwu, hnwl] <;> omega)]
    simp only [Node.withRect, Node.nw_mk, Node.ne_mk, Node.sw_mk, Node.se_mk, Node.avg_mk,
      Node.ul_mk, Node.lr_mk]
    rw [flipNode_epair ax uy cx ly 0 (sy - uy) avg _ _
      (by simp <;> omega) (by simp <;> omega)]
    congr 1
    · exact flip2_step ih1 _ _ _ _ (by simp [hnwu]) (by simp [hnwl] <;> omega)
        (by simp [hnwu, hnwl] <;> omega) (by simp [hnwu, Prod.mk.injEq] <;> omega)
        (by simp [hnwl, Prod.mk.injEq] <;> omega)
    · exact flip2_step ih3 _ _ _ _ (by simp [hswu] <;> omega) (by simp [hswl] <;> omega)
        (by simp [hswu, hswl] <;> omega) (by simp [hswu, Prod.mk.injEq] <;> omega)
        (by simp [hswl, Prod.mk.injEq] <;> omega)
  | spair ax ay cx cy sx avg p3 p4 hx1 hx2 hy hswu hswl hseu hsel w3 w4 ih3 ih4 =>
    intro u l hu hl hs
    obtain ⟨ux, uy⟩ := u
    obtain ⟨lx, ly⟩ := l
    simp only [Node.ul_mk, Node.lr_mk] at hu hl hs
    subst hu hl
    simp only [Node.withRect, Node.nw_mk, Node.ne_mk, Node.sw_mk, Node.se_mk, Node.avg_mk,
      Node.ul_mk, Node.lr_mk]
    rw [flipNode_spair ux uy lx ly (sx - ax) 0 avg p3 p4
      (by simp [hswu, hswl] <;> omega) (by simp [hswu, hswl] <;> omega)]
    simp only [Node.withRect, Node.nw_mk, Node.ne_mk, Node.sw_mk, Node.se_mk, Node.avg_mk,
      Node.ul_mk, Node.lr_mk]
    rw [flipNode_spair ax uy cx ly (cx - sx + 1) 0 avg _ _
      (by simp <;> omega) (by simp <;> omega)]
    congr 1
    · exact flip2_step ih3 _ _ _ _ (by simp [hswu] <;> omega) (by simp [hswl] <;> omega)
        (by simp [hswu, hswl] <;> omega) (by simp [hswu, Prod.mk.injEq] <;> omega)
        (by simp [hswl, Prod.mk.injEq] <;> omega)
    · exact flip2_step ih4 _ _ _ _ (by simp [hseu] <;> omega) (by simp [hsel] <;> omega)
        (by simp [hseu, hsel] <;> omega) (by simp [hseu, Prod.mk.injEq] <;> omega)
        (by simp [hsel, Prod.mk.injEq] <;> omega)
  | epair ax ay cx cy sy avg p2 p4 hy1 hy2 hx hneu hnel hseu hsel w2 w4 ih2 ih4 =>
    intro u l hu hl hs
    obtain ⟨ux, uy⟩ := u
    obtain ⟨lx, ly⟩ := l
    simp only [Node.ul_mk, Node.lr_mk] at hu hl hs
    subst hu hl
    simp only [Node.withRect, Node.nw_mk, Node.ne_mk, Node.sw_mk, Node.se_mk, Node.avg_mk,
      Node.ul_mk, Node.lr_mk]
    rw [flipNode_epair ux uy lx ly 0 (sy - uy) avg p2 p4
      (by simp [hneu, hnel] <;> omega) (by simp [hneu, hnel] <;> omega)]
    simp only [Node.withRect, Node.nw_mk, Node.ne_mk, Node.sw_mk, Node.se_mk, Node.avg_mk,
      Node.ul_mk, Node.lr_mk]
    rw [flipNode_vert ax uy cx ly (cx - ax + 1) (sy - uy) avg _ _
      (by simp <;> omega) (by simp <;> omega)]
    congr 1
    · exact flip2_step ih2 _ _ _ _ (by simp [hneu]) (by simp [hnel] <;> omega)
        (by simp [hneu, hnel] <;> omega) (by simp [hneu, Prod.mk.injEq] <;> omega)
        (by simp [hnel, Prod.mk.injEq] <;> omega)
    · exact flip2_step ih4 _ _ _ _ (by simp [hseu] <;> omega) (by simp [hsel] <;> omega)
        (by simp [hseu, hsel] <;> omega) (by simp [hseu, Prod.mk.injEq] <;> omega)
        (by simp [hsel, Prod.mk.injEq] <;> omega)

theorem rot4_step {p : Node}
    (IH : ∀ u1 l1 u2 l2 u3 l3 : ℤ × ℤ,
      l1.1 - u1.1 = p.lr.2 - p.ul.2 → l1.2 - u1.2 = p.lr.1 - p.ul.1 →
      l2.1 - u2.1 = p.lr.1 - p.ul.1 → l2.2 - u2.2 = p.lr.2 - p.ul.2 →
      l3.1 - u3.1 = p.lr.2 - p.ul.2 → l3.2 - u3.2 = p.lr.1 - p.ul.1 →
      rotateSubtree ((rotateSubtree ((rotateSubtree ((rotateSubtree
        (p.withRect u1 l1)).withRect u2 l2)).withRect u3 l3)).withRect p.ul p.lr) = p)
    (u1 l1 u2 l2 u3 l3 v w : ℤ × ℤ)
    (h1a : l1.1 - u1.1 = p.lr.2 - p.ul.2) (h1b : l1.2 - u1.2 = p.lr.1 - p.ul.1)
    (h2a : l2.1 - u2.1 = p.lr.1 - p.ul.1) (h2b : l2.2 - u2.2 = p.lr.2 - p.ul.2)
    (h3a : l3.1 - u3.1 = p.lr.2 - p.ul.2) (h3b : l3.2 - u3.2 = p.lr.1 - p.ul.1)
    (hv : v = p.ul) (hw : w = p.lr) :
    some (rotateSubtree ((rotateSubtree ((rotateSubtree ((rotateSubtree
      (p.withRect u1 l1)).withRect u2 l2)).withRect u3 l3)).withRect v w)) = some p := by
  rw [hv, hw]
  exact congrArg some (IH u1 l1 u2 l2 u3 l3 h1a h1b h2a h2b h3a h3b)

/-- Four successive rotations restore a well-formed subtree exactly, for any
choice of the intermediate imposed rectangles (the first and third with
exchanged width/height, the second and fourth with the original dimensions,
the fourth being the node's own rectangle). -/
theorem rot4_shift {n : Node} (hn : WF n) :
    ∀ u1 l1 u2 l2 u3 l3 : ℤ × ℤ,
    l1.1 - u1.1 = n.lr.2 - n.ul.2 → l1.2 - u1.2 = n.lr.1 - n.ul.1 →
    l2.1 - u2.1 = n.lr.1 - n.ul.1 → l2.2 - u2.2 = n.lr.2 - n.ul.2 →
    l3.1 - u3.1 = n.lr.2 - n.ul.2 → l3.2 - u3.2 = n.lr.1 - n.ul.1 →
    rotateSubtree ((rotateSubtree ((rotateSubtree ((rotateSubtree
      (n.withRect u1 l1)).withRect u2 l2)).withRect u3 l3)).withRect n.ul n.lr) = n := by
  induction hn with
  | leaf ax ay cx cy avg h1 h2 =>
    intro u1 l1 u2 l2 u3 l3 hd1a hd1b hd2a hd2b hd3a hd3b
    obtain ⟨p1x, p1y⟩ := u1; obtain ⟨q1x, q1y⟩ := l1
    obtain ⟨p2x, p2y⟩ := u2; obtain ⟨q2x, q2y⟩ := l2
    obtain ⟨p3x, p3y⟩ := u3; obtain ⟨q3x, q3y⟩ := l3
    simp only [Node.withRect, Node.nw_mk, Node.ne_mk, Node.sw_mk, Node.se_mk, Node.avg_mk,
      Node.ul_mk, Node.lr_mk]
    rw [rotateSubtree_leaf]
    simp only [Node.withRect, Node.nw_mk, Node.ne_mk, Node.sw_mk, Node.se_mk, Node.avg_mk,
      Node.ul_mk, Node.lr_mk]
    rw [rotateSubtree_leaf]
    simp only [Node.withRect, Node.nw_mk, Node.ne_mk, Node.sw_mk, Node.se_mk, Node.avg_mk,
      Node.ul_mk, Node.lr_mk]
    rw [rotateSubtree_leaf]
    simp only [Node.withRect, Node.nw_mk, Node.ne_mk, Node.sw_mk, Node.se_mk, Node.avg_mk,
      Node.ul_mk, Node.lr_mk]
    rw [rotateSubtree_leaf]
  | quad ax ay cx cy sx sy avg p1 p2 p3 p4 hx1 hx2 hy1 hy2 hnwu hnwl hneu hnel hswu hswl
      hseu hsel w1 w2 w3 w4 ih1 ih2 ih3 ih4 =>
    intro u1 l1 u2 l2 u3 l3 hd1a hd1b hd2a hd2b hd3a hd3b
    obtain ⟨p1x, p1y⟩ := u1; obtain ⟨q1x, q1y⟩ := l1
    obtain ⟨p2x, p2y⟩ := u2; obtain ⟨q2x, q2y⟩ := l2
    obtain ⟨p3x, p3y⟩ := u3; obtain ⟨q3x, q3y⟩ := l3
    simp only [Node.ul_mk, Node.lr_mk] at hd1a hd1b hd2a hd2b hd3a hd3b
    simp only [Node.withRect, Node.nw_mk, Node.ne_mk, Node.sw_mk, Node.se_mk, Node.avg_mk,
      Node.ul_mk, Node.lr_mk]
    rw [rotateSubtree_quad p1x p1y q1x q1y (cx - sx + 1) (sy - ay) avg p1 p2 p3 p4
      (by simp [hneu, hnel] <;> omega) (by simp [hnwu, hnwl] <;> omega)]
    simp only [Node.withRect, Node.nw_mk, Node.ne_mk, Node.sw_mk, Node.se_mk, Node.avg_mk,
      Node.ul_mk, Node.lr_mk]
    rw [rotateSubtree_quad p2x p2y q2x q2y (cy - sy + 1) (cx - sx + 1) avg _ _ _ _
      (by simp <;> omega) (by simp <;> omega)]
    simp only [Node.withRect, Node.nw_mk, Node.ne_mk, Node.sw_mk, Node.se_mk, Node.avg_mk,
      Node.ul_mk, Node.lr_mk]
    rw [rotateSubtree_quad p3x p3y q3x q3y (sx - ax) (cy - sy + 1) avg _ _ _ _
      (by simp <;> omega) (by simp <;> omega)]
    simp only [Node.withRect, Node.nw_mk, Node.ne_mk, Node.sw_mk, Node.se_mk, Node.avg_mk,
      Node.ul_mk, Node.lr_mk]
    rw [rotateSubtree_quad ax ay cx cy (sy - ay) (sx - ax) avg _ _ _ _
      (by simp <;> omega) (by simp <;> omega)]
    congr 1
    · exact rot4_step ih1 _ _ _ _ _ _ _ _
        (by simp [hnwu, hnwl] <;> omega) (by simp [hnwu, hnwl] <;> omega)
        (by simp [hnwu, hnwl] <;> omega) (by simp [hnwu, hnwl] <;> omega)
        (by simp [hnwu, hnwl] <;> omega) (by simp [hnwu, hnwl] <;> omega)
        (by simp [hnwu, Prod.mk.injEq] <;> omega) (by simp [hnwl, Prod.mk.injEq] <;> omega)
    · exact rot4_step ih2 _ _ _ _ _ _ _ _
        (by simp [hneu, hnel] <;> omega) (by simp [hneu, hnel] <;> omega)
        (by simp [hneu, hnel] <;> omega) (by simp [hneu, hnel] <;> omega)
        (by simp [hneu, hnel] <;> omega) (by simp [hneu, hnel] <;> omega)
        (by simp [hneu, Prod.mk.injEq] <;> omega) (by simp [hnel, Prod.mk.injEq] <;> omega)
    · exact rot4_step ih3 _ _ _ _ _ _ _ _
        (by simp [hswu, hswl] <;> omega) (by simp [hswu, hswl] <;> omega)
        (by simp [hswu, hswl] <;> omega) (by simp [hswu, hswl] <;> omega)
        (by simp [hswu, hswl] <;> omega) (by simp [hswu, hswl] <;> omega)
        (by simp [hswu, Prod.mk.injEq] <;> omega) (by simp [hswl, Prod.mk.injEq] <;> omega)
    · exact rot4_step ih4 _ _ _ _ _ _ _ _
        (by simp [hseu, hsel] <;> omega) (by simp [hseu, hsel] <;> omega)
        (by simp [hseu, hsel] <;> omega) (by simp [hseu, hsel] <;> omega)
        (by simp [hseu, hsel] <;> omega) (by simp [hseu, hsel] <;> omega)
        (by simp [hseu, Prod.mk.injEq] <;> omega) (by simp [hsel, Prod.mk.injEq] <;> omega)
  | horiz ax ay cx cy sx avg p1 p2 hx1 hx2 hy hnwu hnwl hneu hnel w1 w2 ih1 ih2 =>
    intro u1 l1 u2 l2 u3 l3 hd1a hd1b hd2a hd2b hd3a hd3b
    obtain ⟨p1x, p1y⟩ := u1; obtain ⟨q1x, q1y⟩ := l1
    obtain ⟨p2x, p2y⟩ := u2; obtain ⟨q2x, q2y⟩ := l2
    obtain ⟨p3x, p3y⟩ := u3; obtain ⟨q3x, q3y⟩ := l3
    simp only [Node.ul_mk, Node.lr_mk] at hd1a hd1b hd2a hd2b hd3a hd3b
    simp only [Node.withRect, Node.nw_mk, Node.ne_mk, Node.sw_mk, Node.se_mk, Node.avg_mk,
      Node.ul_mk, Node.lr_mk]
    rw [rotateSubtree_horiz p1x p1y q1x q1y (cx - sx + 1) (cy - ay + 1) avg p1 p2
      (by simp [hneu, hnel] <;> omega) (by simp [hnwu, hnwl] <;> omega)]
    simp only [Node.withRect, Node.nw_mk, Node.ne_mk, Node.sw_mk, Node.se_mk, Node.avg_mk,
      Node.ul_mk, Node.lr_mk]
    rw [rotateSubtree_vert p2x p2y q2x q2y 0 (cx - sx + 1) avg _ _
      (by simp <;> omega) (by simp <;> omega)]
    simp only [Node.withRect, Node.nw_mk, Node.ne_mk, Node.sw_mk, Node.se_mk, Node.avg_mk,
      Node.ul_mk, Node.lr_mk]
    rw [rotateSubtree_spair p3x p3y q3x q3y (sx - ax) 0 avg _ _
      (by simp <;> omega) (by simp <;> omega)]
    simp only [Node.withRect, Node.nw_mk, Node.ne_mk, Node.sw_mk, Node.se_mk, Node.avg_mk,
      Node.ul_mk, Node.lr_mk]
    rw [rotateSubtree_epair ax ay cx cy (cy - ay + 1) (sx - ax) avg _ _
      (by simp <;> omega) (by simp <;> omega)]
    congr 1
    · exact rot4_step ih1 _ _ _ _ _ _ _ _
        (by simp [hnwu, hnwl] <;> omega) (by simp [hnwu, hnwl] <;> omega)
        (by simp [hnwu, hnwl] <;> omega) (by simp [hnwu, hnwl] <;> omega)
        (by simp [hnwu, hnwl] <;> omega) (by simp [hnwu, hnwl] <;> omega)
        (by simp [hnwu, Prod.mk.injEq] <;> omega) (by simp [hnwl, Prod.mk.injEq] <;> omega)
    · exact rot4_step ih2 _ _ _ _ _ _ _ _
        (by simp [hneu, hnel] <;> omega) (by simp [hneu, hnel] <;> omega)
        (by simp [hneu, hnel] <;> omega) (by simp [hneu, hnel] <;> omega)
        (by simp [hneu, hnel] <;> omega) (by simp [hneu, hnel] <;> omega)
        (by simp [hneu, Prod.mk.injEq] <;> omega) (by simp [hnel, Prod.mk.injEq] <;> omega)
  | vert ax ay cx cy sy avg p1 p3 hy1 hy2 hx hnwu hnwl hswu hswl w1 w3 ih1 ih3 =>
    intro u1 l1 u2 l2 u3 l3 hd1a hd1b hd2a hd2b hd3a hd3b
    obtain ⟨p1x, p1y⟩ := u1; obtain ⟨q1x, q1y⟩ := l1
    obtain ⟨p2x, p2y⟩ := u2; obtain ⟨q2x, q2y⟩ := l2
    obtain ⟨p3x, p3y⟩ := u3; obtain ⟨q3x, q3y⟩ := l3
    simp only [Node.ul_mk, Node.lr_mk] at hd1a hd1b hd2a hd2b hd3a hd3b
    simp only [Node.withRect, Node.nw_mk, Node.ne_mk, Node.sw_mk, Node.se_mk, Node.avg_mk,
      Node.ul_mk, Node.lr_mk]
    rw [rotateSubtree_vert p1x p1y q1x q1y 0 (sy - ay) avg p1 p3
      (by simp [hnwu, hnwl] <;> omega) (by simp [hnwu, hnwl] <;> omega)]
    simp only [Node.withRect, Node.nw_mk, Node.ne_mk, Node.sw_mk, Node.se_mk, Node.avg_mk,
      Node.ul_mk, Node.lr_mk]
    rw [rotateSubtree_spair p2x p2y q2x q2y (cy - sy + 1) 0 avg _ _
      (by simp <;> omega) (by simp <;> omega)]
    simp only [Node.withRect, Node.nw_mk, Node.ne_mk, Node.sw_mk, Node.se_mk, Node.avg_mk,
      Node.ul_mk, Node.lr_mk]
    rw [rotateSubtree_epair p3x p3y q3x q3y (cx - ax + 1) (cy - sy + 1) avg _ _
      (by simp <;> omega) (by simp <;> omega)]
    simp only [Node.withRect, Node.nw_mk, Node.ne_mk, Node.sw_mk, Node.se_mk, Node.avg_mk,
      Node.ul_mk, Node.lr_mk]
    rw [rotateSubtree_horiz ax ay cx cy (sy - ay) (cx - ax + 1) avg _ _
      (by simp <;> omega) (by simp <;> omega)]
    congr 1
    · exact rot4_step ih1 _ _ _ _ _ _ _ _
        (by simp [hnwu, hnwl] <;> omega) (by simp [hnwu, hnwl] <;> omega)
        (by simp [hnwu, hnwl] <;> omega) (by simp [hnwu, hnwl] <;> omega)
        (by simp [hnwu, hnwl] <;> omega) (by simp [hnwu, hnwl] <;> omega)
        (by simp [hnwu, Prod.mk.injEq] <;> omega) (by simp [hnwl, Prod.mk.injEq] <;> omega)
    · exact rot4_step ih3 _ _ _ _ _ _ _ _
        (by simp [hswu, hswl] <;> omega) (by simp [hswu, hswl] <;> omega)
        (by simp [hswu, hswl] <;> omega) (by simp [hswu, hswl] <;> omega)
        (by simp [hswu, hswl] <;> omega) (by simp [hswu, hswl] <;> omega)
        (by simp [hswu, Prod.mk.injEq] <;> omega) (by simp [hswl, Prod.mk.injEq] <;> omega)
  | spair ax ay cx cy sx avg p3 p4 hx1 hx2 hy hswu hswl hseu hsel w3 w4 ih3 ih4 =>
    intro u1 l1 u2 l2 u3 l3 hd1a hd1b hd2a hd2b hd3a hd3b
    obtain ⟨p1x, p1y⟩ := u1; obtain ⟨q1x, q1y⟩ := l1
    obtain ⟨p2x, p2y⟩ := u2; obtain ⟨q2x, q2y⟩ := l2
    obtain ⟨p3x, p3y⟩ := u3; obtain ⟨q3x, q3y⟩ := l3
    simp only [Node.ul_mk, Node.lr_mk] at hd1a hd1b hd2a hd2b hd3a hd3b
    simp only [Node.withRect, Node.nw_mk, Node.ne_mk, Node.sw_mk, Node.se_mk, Node.avg_mk,
      Node.ul_mk, Node.lr_mk]
    rw [rotateSubtree_spair p1x p1y q1x q1y (cx - sx + 1) 0 avg p3 p4
      (by simp [hseu, hsel] <;> omega) (by simp [hswu, hswl] <;> omega)]
    simp only [Node.withRect, Node.nw_mk, Node.ne_mk, Node.sw_mk, Node.se_mk, Node.avg_mk,
      Node.ul_mk, Node.lr_mk]
    rw [rotateSubtree_epair p2x p2y q2x q2y (cy - ay + 1) (cx - sx + 1) avg _ _
      (by simp <;> omega) (by simp <;> omega)]
    simp only [Node.withRect, Node.nw_mk, Node.ne_mk, Node.sw_mk, Node.se_mk, Node.avg_mk,
      Node.ul_mk, Node.lr_mk]
    rw [rotateSubtree_horiz p3x p3y q3x q3y (sx - ax) (cy - ay + 1) avg _ _
      (by simp <;> omega) (by simp <;> omega)]
    simp only [Node.withRect, Node.nw_mk, Node.ne_mk, Node.sw_mk, Node.se_mk, Node.avg_mk,
      Node.ul_mk, Node.lr_mk]
    rw [rotateSubtree_vert ax ay cx cy 0 (sx - ax) avg _ _
      (by simp <;> omega) (by simp <;> omega)]
    congr 1
    · exact rot4_step ih3 _ _ _ _ _ _ _ _
        (by simp [hswu, hswl] <;> omega) (by simp [hswu, hswl] <;> omega)
        (by simp [hswu, hswl] <;> omega) (by simp [hswu, hswl] <;> omega)
        (by simp [hswu, hswl] <;> omega) (by simp [hswu, hswl] <;> omega)
        (by simp [hswu, Prod.mk.injEq] <;> omega) (by simp [hswl, Prod.mk.injEq] <;> omega)
    · exact rot4_step ih4 _ _ _ _ _ _ _ _
        (by simp [hseu, hsel] <;> omega) (by simp [hseu, hsel] <;> omega)
        (by simp [hseu, hsel] <;> omega) (by simp [hseu, hsel] <;> omega)
        (by simp [hseu, hsel] <;> omega) (by simp [hseu, hsel] <;> omega)
        (by simp [hseu, Prod.mk.injEq] <;> omega) (by simp [hsel, Prod.mk.injEq] <;> omega)
  | epair ax ay cx cy sy avg p2 p4 hy1 hy2 hx hneu hnel hseu hsel w2 w4 ih2 ih4 =>
    intro u1 l1 u2 l2 u3 l3 hd1a hd1b hd2a hd2b hd3a hd3b
    obtain ⟨p1x, p1y⟩ := u1; obtain ⟨q1x, q1y⟩ := l1
    obtain ⟨p2x, p2y⟩ := u2; obtain ⟨q2x, q2y⟩ := l2
    obtain ⟨p3x, p3y⟩ := u3; obtain ⟨q3x, q3y⟩ := l3
    simp only [Node.ul_mk, Node.lr_mk] at hd1a hd1b hd2a hd2b hd3a hd3b
    simp only [Node.withRect, Node.nw_mk, Node.ne_mk, Node.sw_mk, Node.se_mk, Node.avg_mk,
      Node.ul_mk, Node.lr_mk]
    rw [rotateSubtree_epair p1x p1y q1x q1y (cx - ax + 1) (sy - ay) avg p2 p4
      (by simp [hneu, hnel] <;> omega) (by simp [hneu, hnel] <;> omega)]
    simp only [Node.withRect, Node.nw_mk, Node.ne_mk, Node.sw_mk, Node.se_mk, Node.avg_mk,
      Node.ul_mk, Node.lr_mk]
    rw [rotateSubtree_horiz p2x p2y q2x q2y (cy - sy + 1) (cx - ax + 1) avg _ _
      (by simp <;> omega) (by simp <;> omega)]
    simp only [Node.withRect, Node.nw_mk, Node.ne_mk, Node.sw_mk, Node.se_mk, Node.avg_mk,
      Node.ul_mk, Node.lr_mk]
    rw [rotateSubtree_vert p3x p3y q3x q3y 0 (cy - sy + 1) avg _ _
      (by simp <;> omega) (by simp <;> omega)]
    simp only [Node.withRect, Node.nw_mk, Node.ne_mk, Node.sw_mk, Node.se_mk, Node.avg_mk,
      Node.ul_mk, Node.lr_mk]
    rw [rotateSubtree_spair ax ay cx cy (sy - ay) 0 avg _ _
      (by simp <;> omega) (by simp <;> omega)]
    congr 1
    · exact rot4_step ih2 _ _ _ _ _ _ _ _
        (by simp [hneu, hnel] <;> omega) (by simp [hneu, hnel] <;> omega)
        (by simp [hneu, hnel] <;> omega) (by simp [hneu, hnel] <;> omega)
        (by simp [hneu, hnel] <;> omega) (by simp [hneu, hnel] <;> omega)
        (by simp [hneu, Prod.mk.injEq] <;> omega) (by simp [hnel, Prod.mk.injEq] <;> omega)
    · exact rot4_step ih4 _ _ _ _ _ _ _ _
        (by simp [hseu, hsel] <;> omega) (by simp [hseu, hsel] <;> omega)
        (by simp [hseu, hsel] <;> omega) (by simp [hseu, hsel] <;> omega)
        (by simp [hseu, hsel] <;> omega) (by simp [hseu, hsel] <;> omega)
        (by simp [hseu, Prod.mk.injEq] <;> omega) (by simp [hsel, Prod.mk.injEq] <;> omega)

theorem flipNode_flipNode {n : Node} (hn : WF n) : flipNode (flipNode n) = n := by
  have h := flip_flip_shift hn n.ul n.lr rfl rfl (by omega)
  rw [Node.withRect_self] at h
  rw [show (flipNode n).withRect n.ul n.lr = flipNode n from by
      conv_lhs => rw [← flipNode_ul n, ← flipNode_lr n]
      exact Node.withRect_self _] at h
  exact h

theorem QTree.ext' {a b : QTree} (h1 : a.width = b.width) (h2 : a.height = b.height)
    (h3 : a.root = b.root) : a = b := by
  cases a; cases b
  simp only [QTree.width, QTree.height, QTree.root] at h1 h2 h3
  subst h1 h2 h3
  rfl

/-- Two flips restore the tree exactly. -/
theorem flipH_flipH {t : QTree} (ht : Reachable t) : t.flipH.flipH = t := by
  obtain ⟨wf, hu, hl, hw, hh⟩ := reachable_wft ht
  exact QTree.ext' rfl rfl (flipNode_flipNode wf)

/-- Four CCW rotations restore the tree exactly. -/
theorem rotCCW_four {t : QTree} (ht : Reachable t) :
    t.rotCCW.rotCCW.rotCCW.rotCCW = t := by
  obtain ⟨wf, hu, hl, hw, hh⟩ := reachable_wft ht
  refine QTree.ext' rfl rfl ?_
  have hroot : t.rotCCW.rotCCW.rotCCW.rotCCW.root =
      rotateSubtree ((rotateSubtree ((rotateSubtree ((rotateSubtree
        (t.root.withRect t.root.ul (t.root.lr.2, t.root.lr.1))).withRect
          t.root.ul t.root.lr)).withRect t.root.ul (t.root.lr.2, t.root.lr.1))).withRect
            t.root.ul t.root.lr) := by
    simp [QTree.rotCCW]
  rw [hroot]
  exact rot4_shift wf _ _ _ _ _ _ (by simp [hu]) (by simp [hu]) (by simp [hu])
    (by simp [hu]) (by simp [hu]) (by simp [hu])

/-- Leaves of an optional subtree. -/
def oleaves : Option Node → List Node
  | none => []
  | some n => leafNodes n

theorem osize_nw_lt (n : Node) : osize n.nw < n.size := by
  cases n with
  | mk u l a c1 c2 c3 c4 => rw [Node.size_mk]; simp only [Node.nw_mk]; omega

theorem osize_ne_lt (n : Node) : osize n.ne < n.size := by
  cases n with
  | mk u l a c1 c2 c3 c4 => rw [Node.size_mk]; simp only [Node.ne_mk]; omega

theorem osize_sw_lt (n : Node) : osize n.sw < n.size := by
  cases n with
  | mk u l a c1 c2 c3 c4 => rw [Node.size_mk]; simp only [Node.sw_mk]; omega

theorem osize_se_lt (n : Node) : osize n.se < n.size := by
  cases n with
  | mk u l a c1 c2 c3 c4 => rw [Node.size_mk]; simp only [Node.se_mk]; omega

theorem leafNodes_eq_of_not_leaf {n : Node} (h : ¬ n.isLeafB = true) :
    leafNodes n = oleaves n.nw ++ oleaves n.ne ++ oleaves n.sw ++ oleaves n.se := by
  rw [leafNodes, if_neg h]
  rcases hnw : n.nw <;> rcases hne : n.ne <;> rcases hsw : n.sw <;> rcases hse : n.se <;>
    simp [oleaves]

/-- `QTree::shouldPrune` holds exactly when every leaf of the subtree is
within tolerance of the reference color `a`. -/
theorem shouldPrune_eq_all (wt : RGBA → RGBA → ℚ → Bool) (τ : ℚ) :
    ∀ (m : ℕ) (o : Option Node), osize o ≤ m → ∀ a : RGBA,
    shouldPrune wt τ o a = (oleaves o).all (fun l => wt l.avg a τ) := by
  intro m
  induction m using Nat.strong_induction_on with
  | _ m ih =>
    intro o ho a
    match o with
    | none => rw [shouldPrune]; simp [oleaves]
    | some n =>
      rw [shouldPrune]
      by_cases hl : n.isLeafB
      · rw [if_pos hl]
        rw [oleaves, leafNodes, if_pos hl]
        simp
      · rw [if_neg hl]
        have hms : 1 ≤ n.size := Node.size_pos n
        have hos : osize (some n) = n.size := rfl
        rw [ih (m - 1) (by rw [hos] at ho; omega) n.nw
            (by have := osize_nw_lt n; rw [hos] at ho; omega),
          ih (m - 1) (by rw [hos] at ho; omega) n.ne
            (by have := osize_ne_lt n; rw [hos] at ho; omega),
          ih (m - 1) (by rw [hos] at ho; omega) n.sw
            (by have := osize_sw_lt n; rw [hos] at ho; omega),
          ih (m - 1) (by rw [hos] at ho; omega) n.se
            (by have := osize_se_lt n; rw [hos] at ho; omega)]
        rw [oleaves, leafNodes_eq_of_not_leaf hl]
        simp [List.all_append, Bool.and_assoc]

/-- The pruning criterion of the spec: all leaves of the subtree are within
tolerance of the subtree's own root average. -/
def allLeavesWithin (wt : RGBA → RGBA → ℚ → Bool) (τ : ℚ) (n : Node) : Bool :=
  (leafNodes n).all (fun l => wt l.avg n.avg τ)

theorem shouldPrune_root (wt : RGBA → RGBA → ℚ → Bool) (τ : ℚ) (n : Node) :
    shouldPrune wt τ (some n) n.avg = allLeavesWithin wt τ n := by
  rw [shouldPrune_eq_all wt τ (osize (some n)) (some n) le_rfl]
  rfl

theorem shouldPrune_mono {wt : RGBA → RGBA → ℚ → Bool}
    (hmono : ∀ a b τ1 τ2, τ1 ≤ τ2 → wt a b τ1 = true → wt a b τ2 = true)
    {τ1 τ2 : ℚ} (hτ : τ1 ≤ τ2) (o : Option Node) (a : RGBA)
    (h : shouldPrune wt τ1 o a = true) : shouldPrune wt τ2 o a = true := by
  rw [shouldPrune_eq_all wt τ1 (osize o) o le_rfl] at h
  rw [shouldPrune_eq_all wt τ2 (osize o) o le_rfl]
  rw [List.all_eq_true] at h ⊢
  intro l hlm
  exact hmono _ _ _ _ hτ (h l hlm)

theorem size_deleteChildren (n : Node) : (deleteChildren n).size = 1 := by
  rw [deleteChildren, Node.size_mk]
  rfl

/-- A larger tolerance never leaves more nodes after pruning. -/
theorem pruneNode_size_mono {wt : RGBA → RGBA → ℚ → Bool}
    (hmono : ∀ a b τ1 τ2, τ1 ≤ τ2 → wt a b τ1 = true → wt a b τ2 = true)
    {τ1 τ2 : ℚ} (hτ : τ1 ≤ τ2) :
    ∀ (m : ℕ) (n : Node), n.size ≤ m →
    (pruneNode wt τ2 n).size ≤ (pruneNode wt τ1 n).size := by
  intro m
  induction m using Nat.strong_induction_on with
  | _ m ih =>
    intro n hm
    rw [pruneNode, pruneNode]
    by_cases hl : n.isLeafB
    · rw [if_pos hl, if_pos hl]
    · rw [if_neg hl, if_neg hl]
      by_cases h2 : shouldPrune wt τ2 (some n) n.avg = true
      · rw [if_pos h2]
        split
        · rfl
        · rw [size_deleteChildren]
          exact Node.size_pos _
      · rw [if_neg h2]
        have h1 : ¬ shouldPrune wt τ1 (some n) n.avg = true := by
          intro hc
          exact h2 (shouldPrune_mono hmono hτ _ _ hc)
        rw [if_neg h1]
        rw [Node.size_mk, Node.size_mk]
        have hms : 1 ≤ n.size := Node.size_pos n
        have e1 : osize (match h : n.nw with
            | none => none
            | some c => some (pruneNode wt τ2 c)) ≤
            osize (match h : n.nw with
            | none => none
            | some c => some (pruneNode wt τ1 c)) := by
          rcases hnw : n.nw with _ | c
          · simp
          · have := size_lt_of_nw hnw
            exact ih (m - 1) (by omega) c (by omega)
        have e2 : osize (match h : n.ne with
            | none => none
            | some c => some (pruneNode wt τ2 c)) ≤
            osize (match h : n.ne with
            | none => none
            | some c => some (pruneNode wt τ1 c)) := by
          rcases hne : n.ne with _ | c
          · simp
          · have := size_lt_of_ne hne
            exact ih (m - 1) (by omega) c (by omega)
        have e3 : osize (match h : n.sw with
            | none => none
            | some c => some (pruneNode wt τ2 c)) ≤
            osize (match h : n.sw with
            | none => none
            | some c => some (pruneNode wt τ1 c)) := by
          rcases hsw : n.sw with _ | c
          · simp
          · have := size_lt_of_sw hsw
            exact ih (m - 1) (by omega) c (by omega)
        have e4 : osize (match h : n.se with
            | none => none
            | some c => some (pruneNode wt τ2 c)) ≤
            osize (match h : n.se with
            | none => none
            | some c => some (pruneNode wt τ1 c)) := by
          rcases hse : n.se with _ | c
          · simp
          · have := size_lt_of_se hse
            exact ih (m - 1) (by omega) c (by omega)
        omega

theorem nodesOf_eq (n : Node) :
    nodesOf n = n :: (onodes n.nw ++ onodes n.ne ++ onodes n.sw ++ onodes n.se) := by
  rw [nodesOf]
  rcases hnw : n.nw <;> rcases hne : n.ne <;> rcases hsw : n.sw <;> rcases hse : n.se <;>
    simp [onodes]


/-- Every node of a freshly built subtree has the average `assignColor`
computes from its direct children (when it is internal) and obeys the
`BuildNode` split rule. -/
theorem build_nodes_props (img : Img) :
    ∀ (m : ℕ) (a b c d : ℕ), c - a + (d - b) ≤ m → a ≤ c → b ≤ d →
    ∀ q ∈ nodesOf (buildNode img (a, b) (c, d)),
      (q.isLeafB = false → q.avg = specChildAvg q) ∧ SplitOK img q := by
  intro m
  induction m using Nat.strong_induction_on with
  | _ m ih =>
    intro a b c d hm ha hb q hq
    rw [buildNode] at hq
    simp only [] at hq
    split_ifs at hq with h1 h2 h3
    · -- 1×1 leaf
      rw [nodesOf_eq] at hq
      simp only [Node.nw_mk, Node.ne_mk, Node.sw_mk, Node.se_mk, onodes,
        List.append_nil, List.mem_cons, List.not_mem_nil, or_false] at hq
      subst hq
      refine ⟨fun hf => absurd hf (by simp [Node.isLeafB]), ?_, ?_, ?_, ?_⟩
      · intro hw hh
        exfalso
        simp only [Node.w, Node.h, Node.ul_mk, Node.lr_mk] at hw hh
        omega
      · intro hw hh
        exfalso
        simp only [Node.w, Node.h, Node.ul_mk, Node.lr_mk] at hw hh
        omega
      · intro hw hh
        exfalso
        simp only [Node.w, Node.h, Node.ul_mk, Node.lr_mk] at hw hh
        omega
      · intro _ _
        refine ⟨rfl, rfl, rfl, rfl, ?_⟩
        simp
    · -- x = 1: vertical strip, children NW/SW
      obtain ⟨wf1, u1, l1⟩ := wf_build img (c - a + (d - b)) a b
        (a + (c - a + 1 + 1) / 2 - 1) (b + (d - b + 1 + 1) / 2 - 1)
        (by omega) (by omega) (by omega)
      obtain ⟨wf3, u3, l3⟩ := wf_build img (c - a + (d - b)) a (b + (d - b + 1 + 1) / 2)
        (a + (c - a + 1 + 1) / 2 - 1) d (by omega) (by omega) (by omega)
      rw [assignColor] at hq
      simp only [Node.nw_mk, Node.ne_mk, Node.sw_mk, Node.se_mk, Node.ul_mk, Node.lr_mk,
        String.reduceEq, reduceIte] at hq
      rw [nodesOf_eq] at hq
      simp only [Node.nw_mk, Node.ne_mk, Node.sw_mk, Node.se_mk, onodes,
        List.append_nil, List.nil_append, List.mem_cons, List.mem_append] at hq
      rcases hq with rfl | hq | hq
      · constructor
        · intro _
          simp only [Node.avg_mk, specChildAvg, kids, Node.nw_mk, Node.ne_mk, Node.sw_mk,
            Node.se_mk, List.filterMap_cons, List.filterMap_nil, id_eq, List.map_cons,
            List.map_nil, List.sum_cons, List.sum_nil, add_zero, childArea, oarea, oR, oG, oB,
            RGBA.mk.injEq]
          refine ⟨?_, ?_, ?_⟩ <;> (congr 2 <;> ring)
        · refine ⟨fun hw hh => ?_, fun hw hh => ?_, fun hw hh => ?_, fun hw hh => ?_⟩
          · exfalso
            simp only [Node.w, Node.h, Node.ul_mk, Node.lr_mk] at hw hh
            omega
          · simp only [Node.nw_mk, Node.ne_mk, Node.sw_mk, Node.se_mk, Node.ul_mk,
              Node.lr_mk, Node.w, Node.h]
            refine ⟨_, _, rfl, trivial, rfl, trivial, ?_, ?_, ?_, ?_⟩
            · exact u1
            · rw [l1]
              simp only [Prod.mk.injEq, true_and, and_true]
              omega
            · rw [u3]
              simp only [Prod.mk.injEq, true_and, and_true]
              omega
            · rw [l3]
              simp only [Prod.mk.injEq, true_and, and_true]
              omega
          · exfalso
            simp only [Node.w, Node.h, Node.ul_mk, Node.lr_mk] at hw hh
            omega
          · exfalso
            simp only [Node.w, Node.h, Node.ul_mk, Node.lr_mk] at hw hh
            omega
      · exact ih (m - 1) (by omega) a b (a + (c - a + 1 + 1) / 2 - 1)
          (b + (d - b + 1 + 1) / 2 - 1) (by omega) (by omega) (by omega) q hq
      · exact ih (m - 1) (by omega) a (b + (d - b + 1 + 1) / 2)
          (a + (c - a + 1 + 1) / 2 - 1) d (by omega) (by omega) (by omega) q hq
    · -- y = 1: horizontal strip, children NW/NE
      obtain ⟨wf1, u1, l1⟩ := wf_build img (c - a + (d - b)) a b
        (a + (c - a + 1 + 1) / 2 - 1) (b + (d - b + 1 + 1) / 2 - 1)
        (by omega) (by omega) (by omega)
      obtain ⟨wf2, u2, l2⟩ := wf_build img (c - a + (d - b)) (a + (c - a + 1 + 1) / 2) b
        c (b + (d - b + 1 + 1) / 2 - 1) (by omega) (by omega) (by omega)
      rw [assignColor] at hq
      simp only [Node.nw_mk, Node.ne_mk, Node.sw_mk, Node.se_mk, Node.ul_mk, Node.lr_mk,
        String.reduceEq, reduceIte] at hq
      rw [nodesOf_eq] at hq
      simp only [Node.nw_mk, Node.ne_mk, Node.sw_mk, Node.se_mk, onodes,
        List.append_nil, List.nil_append, List.mem_cons, List.mem_append] at hq
      rcases hq with rfl | hq | hq
      · constructor
        · intro _
          simp only [Node.avg_mk, specChildAvg, kids, Node.nw_mk, Node.ne_mk, Node.sw_mk,
            Node.se_mk, List.filterMap_cons, List.filterMap_nil, id_eq, List.map_cons,
            List.map_nil, List.sum_cons, List.sum_nil, add_zero, childArea, oarea, oR, oG, oB,
            RGBA.mk.injEq]
          refine ⟨?_, ?_, ?_⟩ <;> (congr 2 <;> ring)
        · refine ⟨fun hw hh => ?_, fun hw hh => ?_, fun hw hh => ?_, fun hw hh => ?_⟩
          · exfalso
            simp only [Node.w, Node.h, Node.ul_mk, Node.lr_mk] at hw hh
            omega
          · exfalso
            simp only [Node.w, Node.h, Node.ul_mk, Node.lr_mk] at hw hh
            omega
          · simp only [Node.nw_mk, Node.ne_mk, Node.sw_mk, Node.se_mk, Node.ul_mk,
              Node.lr_mk, Node.w, Node.h]
            refine ⟨_, _, rfl, rfl, trivial, trivial, ?_, ?_, ?_, ?_⟩
            · exact u1
            · rw [l1]
              simp only [Prod.mk.injEq, true_and, and_true]
              omega
            · rw [u2]
              simp only [Prod.mk.injEq, true_and, and_true]
              omega
            · rw [l2]
              simp only [Prod.mk.injEq, true_and, and_true]
              omega
          · exfalso
            simp only [Node.w, Node.h, Node.ul_mk, Node.lr_mk] at hw hh
            omega
      · exact ih (m - 1) (by omega) a b (a + (c - a + 1 + 1) / 2 - 1)
          (b + (d - b + 1 + 1) / 2 - 1) (by omega) (by omega) (by omega) q hq
      · exact ih (m - 1) (by omega) (a + (c - a + 1 + 1) / 2) b
          c (b + (d - b + 1 + 1) / 2 - 1) (by omega) (by omega) (by omega) q hq
    · -- full quadrant split
      obtain ⟨wf1, u1, l1⟩ := wf_build img (c - a + (d - b)) a b
        (a + (c - a + 1 + 1) / 2 - 1) (b + (d - b + 1 + 1) / 2 - 1)
        (by omega) (by omega) (by omega)
      obtain ⟨wf2, u2, l2⟩ := wf_build img (c - a + (d - b)) (a + (c - a + 1 + 1) / 2) b
        c (b + (d - b + 1 + 1) / 2 - 1) (by omega) (by omega) (by omega)
      obtain ⟨wf3, u3, l3⟩ := wf_build img (c - a + (d - b)) a (b + (d - b + 1 + 1) / 2)
        (a + (c - a + 1 + 1) / 2 - 1) d (by omega) (by omega) (by omega)
      obtain ⟨wf4, u4, l4⟩ := wf_build img (c - a + (d - b)) (a + (c - a + 1 + 1) / 2)
        (b + (d - b + 1 + 1) / 2) c d (by omega) (by omega) (by omega)
      rw [assignColor] at hq
      simp only [Node.nw_mk, Node.ne_mk, Node.sw_mk, Node.se_mk, Node.ul_mk, Node.lr_mk,
        String.reduceEq, reduceIte] at hq
      rw [nodesOf_eq] at hq
      simp only [Node.nw_mk, Node.ne_mk, Node.sw_mk, Node.se_mk, onodes,
        List.append_nil, List.nil_append, List.mem_cons, List.mem_append] at hq
      rcases hq with rfl | ((hq | hq) | hq) | hq
      · constructor
        · intro _
          simp only [Node.avg_mk, specChildAvg, kids, Node.nw_mk, Node.ne_mk, Node.sw_mk,
            Node.se_mk, List.filterMap_cons, List.filterMap_nil, id_eq, List.map_cons,
            List.map_nil, List.sum_cons, List.sum_nil, add_zero, childArea, oarea, oR, oG, oB,
            RGBA.mk.injEq]
          refine ⟨?_, ?_, ?_⟩ <;> (congr 2 <;> ring)
        · refine ⟨fun hw hh => ?_, fun hw hh => ?_, fun hw hh => ?_, fun hw hh => ?_⟩
          · simp only [Node.nw_mk, Node.ne_mk, Node.sw_mk, Node.se_mk, Node.ul_mk,
              Node.lr_mk, Node.w, Node.h]
            refine ⟨_, _, _, _, rfl, rfl, rfl, rfl, ?_, ?_, ?_, ?_, ?_, ?_, ?_, ?_⟩
            · exact u1
            · rw [l1]
              simp only [Prod.mk.injEq, true_and, and_true]
              omega
            · rw [u2]
              simp only [Prod.mk.injEq, true_and, and_true]
              omega
            · rw [l2]
              simp only [Prod.mk.injEq, true_and, and_true]
              omega
            · rw [u3]
              simp only [Prod.mk.injEq, true_and, and_true]
              omega
            · rw [l3]
              simp only [Prod.mk.injEq, true_and, and_true]
              omega
            · rw [u4]
              simp only [Prod.mk.injEq, true_and, and_true]
              omega
            · exact l4
          · exfalso
            simp only [Node.w, Node.h, Node.ul_mk, Node.lr_mk] at hw hh
            omega
          · exfalso
            simp only [Node.w, Node.h, Node.ul_mk, Node.lr_mk] at hw hh
            omega
          · exfalso
            simp only [Node.w, Node.h, Node.ul_mk, Node.lr_mk] at hw hh
            omega
      · exact ih (m - 1) (by omega) a b (a + (c - a + 1 + 1) / 2 - 1)
          (b + (d - b + 1 + 1) / 2 - 1) (by omega) (by omega) (by omega) q hq
      · exact ih (m - 1) (by omega) (a + (c - a + 1 + 1) / 2) b
          c (b + (d - b + 1 + 1) / 2 - 1) (by omega) (by omega) (by omega) q hq
      · exact ih (m - 1) (by omega) a (b + (d - b + 1 + 1) / 2)
          (a + (c - a + 1 + 1) / 2 - 1) d (by omega) (by omega) (by omega) q hq
      · exact ih (m - 1) (by omega) (a + (c - a + 1 + 1) / 2)
          (b + (d - b + 1 + 1) / 2) c d (by omega) (by omega) (by omega) q hq

theorem avgsM_eq (n : Node) :
    avgsM n = n.avg ::ₘ (oavgs n.nw + oavgs n.ne + oavgs n.sw + oavgs n.se) := by
  rw [avgsM]
  rcases hnw : n.nw <;> rcases hne : n.ne <;> rcases hsw : n.sw <;> rcases hse : n.se <;>
    simp [oavgs]

/-- `FlipNode` preserves the multiset of stored averages, whatever rectangle
`positionNormal` imposed on the node before the call. -/
theorem avgsM_flip_shift :
    ∀ (m : ℕ) (n : Node), n.size ≤ m → ∀ u l : ℤ × ℤ,
      avgsM (flipNode (n.withRect u l)) = avgsM n := by
  intro m
  induction m using Nat.strong_induction_on with
  | _ m ih =>
    intro n hm u l
    rcases n with ⟨u0, l0, av, c1, c2, c3, c4⟩
    rw [Node.size_mk] at hm
    rw [show (Node.mk u0 l0 av c1 c2 c3 c4).withRect u l = Node.mk u l av c1 c2 c3 c4 from rfl]
    rw [flipNode]
    by_cases hl : (Node.mk u l av c1 c2 c3 c4).isLeafB
    · rw [if_pos hl]
      rw [avgsM_eq, avgsM_eq]
      simp
    · rw [if_neg hl]
      rw [avgsM_eq, avgsM_eq]
      simp only [Node.avg_mk, Node.nw_mk, Node.ne_mk, Node.sw_mk, Node.se_mk]
      congr 1
      rcases c1 with _ | k1 <;> rcases c2 with _ | k2 <;> rcases c3 with _ | k3 <;>
          rcases c4 with _ | k4 <;>
        (simp only [oavgs, osize] at hm ⊢
         repeat rw [ih (m - 1) (by omega)]
         all_goals first | abel | omega)

/-- `RotateSubtree` preserves the multiset of stored averages, whatever
rectangle the caller imposed on the node before the call. -/
theorem avgsM_rot_shift :
    ∀ (m : ℕ) (n : Node), n.size ≤ m → ∀ u l : ℤ × ℤ,
      avgsM (rotateSubtree (n.withRect u l)) = avgsM n := by
  intro m
  induction m using Nat.strong_induction_on with
  | _ m ih =>
    intro n hm u l
    rcases n with ⟨u0, l0, av, c1, c2, c3, c4⟩
    rw [Node.size_mk] at hm
    rw [show (Node.mk u0 l0 av c1 c2 c3 c4).withRect u l = Node.mk u l av c1 c2 c3 c4 from rfl]
    rw [rotateSubtree]
    by_cases hl : (Node.mk u l av c1 c2 c3 c4).isLeafB
    · rw [if_pos hl]
      rw [avgsM_eq, avgsM_eq]
      simp
    · rw [if_neg hl]
      rw [avgsM_eq, avgsM_eq]
      simp only [Node.avg_mk, Node.nw_mk, Node.ne_mk, Node.sw_mk, Node.se_mk]
      congr 1
      rcases c1 with _ | k1 <;> rcases c2 with _ | k2 <;> rcases c3 with _ | k3 <;>
          rcases c4 with _ | k4 <;>
        (simp only [oavgs, osize] at hm ⊢
         repeat rw [ih (m - 1) (by omega)]
         all_goals first | abel | omega)

/-- The within-tolerance predicate derived from the Euclidean color distance
is monotone in the tolerance. -/
theorem euclWithin_mono (a b : RGBA) (τ1 τ2 : ℚ) (hτ : τ1 ≤ τ2)
    (h : euclWithin a b τ1 = true) : euclWithin a b τ2 = true := by
  rw [euclWithin, decide_eq_true_eq] at h ⊢
  obtain ⟨h0, hd⟩ := h
  exact ⟨le_trans h0 hτ, le_trans hd (pow_le_pow_left h0 hτ 2)⟩

theorem shouldPrune_leaf (wt : RGBA → RGBA → ℚ → Bool) (τ : ℚ) (u l : ℤ × ℤ)
    (av : RGBA) (a : RGBA) :
    shouldPrune wt τ (some (Node.mk u l av none none none none)) a = wt av a τ := by
  rw [shouldPrune]
  simp [Node.isLeafB]

theorem build2_nw :
    buildNode img2 (0, 0) (0, 0) = Node.mk (0, 0) (0, 0) ⟨255, 0, 0⟩ none none none none := by
  rw [buildNode]
  norm_num [img2]

theorem build2_ne :
    buildNode img2 (1, 0) (1, 0) = Node.mk (1, 0) (1, 0) ⟨0, 255, 0⟩ none none none none := by
  rw [buildNode]
  norm_num [img2]

theorem build2_sw :
    buildNode img2 (0, 1) (0, 1) = Node.mk (0, 1) (0, 1) ⟨0, 0, 255⟩ none none none none := by
  rw [buildNode]
  norm_num [img2]

theorem build2_se :
    buildNode img2 (1, 1) (1, 1) = Node.mk (1, 1) (1, 1) ⟨255, 255, 0⟩ none none none none := by
  rw [buildNode]
  norm_num [img2]

theorem build2_root :
    buildNode img2 (0, 0) (1, 1) =
      Node.mk (0, 0) (1, 1) ⟨127, 127, 63⟩
        (some (Node.mk (0, 0) (0, 0) ⟨255, 0, 0⟩ none none none none))
        (some (Node.mk (1, 0) (1, 0) ⟨0, 255, 0⟩ none none none none))
        (some (Node.mk (0, 1) (0, 1) ⟨0, 0, 255⟩ none none none none))
        (some (Node.mk (1, 1) (1, 1) ⟨255, 255, 0⟩ none none none none)) := by
  rw [buildNode]
  simp only [Nat.sub_zero, Nat.reduceAdd, Nat.reduceDiv, Nat.reduceSub, Nat.add_zero,
    Nat.zero_add]
  rw [dif_neg (by norm_num), dif_neg (by norm_num), dif_neg (by norm_num)]
  rw [build2_nw, build2_ne, build2_sw, build2_se]
  rw [assignColor]
  simp only [String.reduceEq, reduceIte, Node.nw_mk, Node.ne_mk, Node.sw_mk, Node.se_mk,
    Node.ul_mk, Node.lr_mk, Node.avg_mk, oarea, oR, oG, oB]
  norm_num
  exact ⟨rfl, rfl⟩

theorem ofImage2_root :
    (QTree.ofImage img2).root =
      Node.mk (0, 0) (1, 1) ⟨127, 127, 63⟩
        (some (Node.mk (0, 0) (0, 0) ⟨255, 0, 0⟩ none none none none))
        (some (Node.mk (1, 0) (1, 0) ⟨0, 255, 0⟩ none none none none))
        (some (Node.mk (0, 1) (0, 1) ⟨0, 0, 255⟩ none none none none))
        (some (Node.mk (1, 1) (1, 1) ⟨255, 255, 0⟩ none none none none)) := by
  have h : (QTree.ofImage img2).root = buildNode img2 (0, 0) (1, 1) := rfl
  rw [h, build2_root]

theorem shouldPrune2 :
    shouldPrune euclWithin 500
      (some (Node.mk (0, 0) (1, 1) ⟨127, 127, 63⟩
        (some (Node.mk (0, 0) (0, 0) ⟨255, 0, 0⟩ none none none none))
        (some (Node.mk (1, 0) (1, 0) ⟨0, 255, 0⟩ none none none none))
        (some (Node.mk (0, 1) (0, 1) ⟨0, 0, 255⟩ none none none none))
        (some (Node.mk (1, 1) (1, 1) ⟨255, 255, 0⟩ none none none none))))
      ⟨127, 127, 63⟩ = true := by
  rw [shouldPrune]
  rw [if_neg (by simp [Node.isLeafB])]
  simp only [Node.nw_mk, Node.ne_mk, Node.sw_mk, Node.se_mk]
  rw [shouldPrune_leaf, shouldPrune_leaf, shouldPrune_leaf, shouldPrune_leaf]
  simp only [euclWithin, Bool.and_eq_true, decide_eq_true_eq]
  norm_num

theorem prune2_root :
    ((QTree.ofImage img2).pruneAt euclWithin 500).root =
      Node.mk (0, 0) (1, 1) ⟨127, 127, 63⟩ none none none none := by
  have h : ((QTree.ofImage img2).pruneAt euclWithin 500).root =
      pruneNode euclWithin 500 (QTree.ofImage img2).root := rfl
  rw [h, ofImage2_root, pruneNode]
  rw [if_neg (by simp [Node.isLeafB])]
  simp only [Node.avg_mk]
  rw [if_pos shouldPrune2, deleteChildren]
  simp

theorem renderPixel_leaf2_s1 (bg : Canvas) (p : ℤ × ℤ) :
    renderPixel 1 (some (Node.mk (0, 0) (1, 1) ⟨127, 127, 63⟩ none none none none)) bg p =
      if 0 ≤ p.1 ∧ p.1 ≤ 1 ∧ 0 ≤ p.2 ∧ p.2 ≤ 1 then ⟨127, 127, 63⟩ else bg p := by
  rw [renderPixel]
  simp only [Node.nw_mk, Node.ne_mk, Node.sw_mk, Node.se_mk, Node.ul_mk, Node.lr_mk,
    Node.avg_mk, renderPixel]
  norm_num [paintRect, Node.w, Node.h]

theorem renderPixel_leaf2_s2 (bg : Canvas) (p : ℤ × ℤ) :
    renderPixel 2 (some (Node.mk (0, 0) (1, 1) ⟨127, 127, 63⟩ none none none none)) bg p =
      if 0 ≤ p.1 ∧ p.1 ≤ 1 ∧ 0 ≤ p.2 ∧ p.2 ≤ 1 then ⟨127, 127, 63⟩ else bg p := by
  rw [renderPixel]
  simp only [Node.nw_mk, Node.ne_mk, Node.sw_mk, Node.se_mk, Node.ul_mk, Node.lr_mk,
    Node.avg_mk, renderPixel]
  norm_num [paintRect, Node.w, Node.h]

/-- C1: the claimed scale behaviour fails in the code.  For the pruned 2×2
scenario tree (reachable through the public interface), scale-1 rendering
makes output pixel (1,0) the leaf average (127,127,63); block replication at
scale 2 would therefore make output pixel (2,0) that same average, since it
lies in the 2×2 block of original pixel (1,0) — indeed the leaf's whole
scaled rectangle is 0..3 × 0..3.  But `RenderPixel` at scale ≠ 1 paints only
the scale×scale block at the leaf's scaled upper-left corner, so (2,0) keeps
the canvas background, refuting the claim (and the renderer's own
documentation). -/
theorem c1_render_scale_bug :
    Reachable ((QTree.ofImage img2).pruneAt euclWithin 500) ∧
    ((QTree.ofImage img2).pruneAt euclWithin 500).render 1 bg0 (1, 0) = ⟨127, 127, 63⟩ ∧
    ((QTree.ofImage img2).pruneAt euclWithin 500).render 2 bg0 (2, 0) = ⟨0, 0, 0⟩ ∧
    (⟨127, 127, 63⟩ : RGBA) ≠ ⟨0, 0, 0⟩ := by
  refine ⟨Reachable.prune _ euclWithin 500 (Reachable.build img2 (by decide) (by decide)),
    ?_, ?_, by decide⟩
  · have h : ((QTree.ofImage img2).pruneAt euclWithin 500).render 1 bg0 (1, 0) =
        renderPixel 1 (some ((QTree.ofImage img2).pruneAt euclWithin 500).root) bg0 (1, 0) := rfl
    rw [h, prune2_root, renderPixel_leaf2_s1]
    norm_num
  · have h : ((QTree.ofImage img2).pruneAt euclWithin 500).render 2 bg0 (2, 0) =
        renderPixel 2 (some ((QTree.ofImage img2).pruneAt euclWithin 500).root) bg0 (2, 0) := rfl
    rw [h, prune2_root, renderPixel_leaf2_s2]
    norm_num [bg0]

/-- C2: for every tree reachable from construction by any sequence of prune,
flip and rotate operations, the leaf rectangles are pairwise disjoint and a
point lies in some leaf rectangle exactly when it lies in
[0, width-1] × [0, height-1] for the tree's current width and height. -/
theorem c2_leaf_tiling {t : QTree} (ht : Reachable t) :
    List.Pairwise (fun q r => ∀ a b : ℤ, inRect q.ul q.lr (a, b) → ¬ inRect r.ul r.lr (a, b))
      (leafNodes t.root) ∧
    ∀ a b : ℤ, ((∃ q ∈ leafNodes t.root, inRect q.ul q.lr (a, b)) ↔
      inRect (0, 0) ((t.width : ℤ) - 1, (t.height : ℤ) - 1) (a, b)) := by
  obtain ⟨wf, hu, hl, hw, hh⟩ := reachable_wft ht
  obtain ⟨hcont, hpair, hcover⟩ := wf_leafNodes wf
  refine ⟨hpair, fun a b => ⟨?_, ?_⟩⟩
  · rintro ⟨q, hq, hin⟩
    have h2 := hcont q hq
    rw [hu, hl] at h2
    simp only [inRect] at hin h2 ⊢
    omega
  · intro hin
    refine hcover a b ?_
    rw [hu, hl]
    exact hin

theorem c2_leaf_tiling_witness :
    List.Pairwise (fun q r => ∀ a b : ℤ, inRect q.ul q.lr (a, b) → ¬ inRect r.ul r.lr (a, b))
      (leafNodes (QTree.ofImage img2).root) ∧
    ∀ a b : ℤ, ((∃ q ∈ leafNodes (QTree.ofImage img2).root, inRect q.ul q.lr (a, b)) ↔
      inRect (0, 0) (((QTree.ofImage img2).width : ℤ) - 1,
        ((QTree.ofImage img2).height : ℤ) - 1) (a, b)) :=
  c2_leaf_tiling (Reachable.build img2 (by decide) (by decide))

/-- C3: in a freshly built tree, every internal node's average equals the
integer-truncating area-weighted mean of the averages of exactly its direct
non-null children (`specChildAvg`, the spec's formula); leaves are exempt,
and nothing is recomputed from raw pixels. -/
theorem c3_internal_average (img : Img) :
    ∀ q ∈ nodesOf (QTree.ofImage img).root, q.isLeafB = false → q.avg = specChildAvg q := by
  intro q hq hlf
  have hq' : q ∈ nodesOf (buildNode img (0, 0) (img.w - 1, img.h - 1)) := hq
  exact (build_nodes_props img (img.w - 1 + (img.h - 1)) 0 0 (img.w - 1) (img.h - 1)
    (by omega) (by omega) (by omega) q hq').1 hlf

theorem c3_internal_average_witness :
    (QTree.ofImage img2).root.avg = specChildAvg (QTree.ofImage img2).root :=
  c3_internal_average img2 (QTree.ofImage img2).root
    (by rw [nodesOf_eq]; exact List.mem_cons_self _ _)
    (by rw [ofImage2_root]; simp [Node.isLeafB])

/-- C4: `PruneNode` at any tolerance leaves a leaf untouched; otherwise, if
every leaf of the subtree is within tolerance of the subtree's own root
average (`allLeavesWithin`, which `shouldPrune` computes), it deletes all
descendants and keeps the rectangle and average; otherwise it keeps the node
and recurses independently into each existing child.  Collapsing happens at
the highest qualifying node because the test precedes the recursion. -/
theorem c4_prune_semantics (wt : RGBA → RGBA → ℚ → Bool) (τ : ℚ) (n : Node) :
    pruneNode wt τ n =
      if n.isLeafB then n
      else if allLeavesWithin wt τ n then Node.mk n.ul n.lr n.avg none none none none
      else Node.mk n.ul n.lr n.avg
        (Option.map (pruneNode wt τ) n.nw) (Option.map (pruneNode wt τ) n.ne)
        (Option.map (pruneNode wt τ) n.sw) (Option.map (pruneNode wt τ) n.se) := by
  rw [pruneNode, shouldPrune_root, deleteChildren]
  rcases hnw : n.nw <;> rcases hne : n.ne <;> rcases hsw : n.sw <;> rcases hse : n.se <;>
    simp [Option.map]

/-- C5: on every reachable tree, two successive `FlipHorizontal` calls give a
tree that renders pixel-for-pixel identically (at every scale and over every
initial canvas); in fact the tree itself is restored. -/
theorem c5_flip_involution {t : QTree} (ht : Reachable t) (scale : ℕ) (bg : Canvas) :
    t.flipH.flipH.render scale bg = t.render scale bg := by
  rw [flipH_flipH ht]

theorem c5_flip_involution_witness :
    (QTree.ofImage img2).flipH.flipH.render 1 bg0 = (QTree.ofImage img2).render 1 bg0 :=
  c5_flip_involution (Reachable.build img2 (by decide) (by decide)) 1 bg0

/-- C6: on every reachable tree, four successive `RotateCCW` calls restore the
stored width and height and give a tree that renders pixel-for-pixel
identically (at every scale and over every initial canvas); in fact the tree
itself is restored. -/
theorem c6_rotate_cycle {t : QTree} (ht : Reachable t) :
    t.rotCCW.rotCCW.rotCCW.rotCCW.width = t.width ∧
    t.rotCCW.rotCCW.rotCCW.rotCCW.height = t.height ∧
    ∀ (scale : ℕ) (bg : Canvas),
      t.rotCCW.rotCCW.rotCCW.rotCCW.render scale bg = t.render scale bg := by
  rw [rotCCW_four ht]
  exact ⟨rfl, rfl, fun _ _ => rfl⟩

theorem c6_rotate_cycle_witness :
    (QTree.ofImage img2).rotCCW.rotCCW.rotCCW.rotCCW.width = (QTree.ofImage img2).width ∧
    (QTree.ofImage img2).rotCCW.rotCCW.rotCCW.rotCCW.height = (QTree.ofImage img2).height ∧
    ∀ (scale : ℕ) (bg : Canvas),
      (QTree.ofImage img2).rotCCW.rotCCW.rotCCW.rotCCW.render scale bg =
        (QTree.ofImage img2).render scale bg :=
  c6_rotate_cycle (Reachable.build img2 (by decide) (by decide))

/-- C7: pruning a freshly built tree with a larger tolerance never leaves
more nodes: for τ1 ≤ τ2 the node count after `Prune τ2` is at most the node
count after `Prune τ1` on an identical copy. -/
theorem c7_prune_tolerance_mono (img : Img) {τ1 τ2 : ℚ} (hτ : τ1 ≤ τ2) :
    ((QTree.ofImage img).pruneAt euclWithin τ2).root.size ≤
      ((QTree.ofImage img).pruneAt euclWithin τ1).root.size := by
  have h2 : ((QTree.ofImage img).pruneAt euclWithin τ2).root =
      pruneNode euclWithin τ2 (QTree.ofImage img).root := rfl
  have h1 : ((QTree.ofImage img).pruneAt euclWithin τ1).root =
      pruneNode euclWithin τ1 (QTree.ofImage img).root := rfl
  rw [h1, h2]
  exact pruneNode_size_mono euclWithin_mono hτ (QTree.ofImage img).root.size _ le_rfl

theorem c7_prune_tolerance_mono_witness :
    ((QTree.ofImage img2).pruneAt euclWithin 500).root.size ≤
      ((QTree.ofImage img2).pruneAt euclWithin 0).root.size :=
  c7_prune_tolerance_mono img2 (by norm_num)

/-- C8: immediately after construction every node obeys the split rule: with
width and height both > 1 it has four children split at halfW = ceil(w/2),
halfH = ceil(h/2) (odd splits favouring the left/upper half); with width 1
and height > 1 only NW/SW; with height 1 and width > 1 only NW/NE; and a 1×1
node is a leaf holding that image pixel. -/
theorem c8_build_split_rule (img : Img) :
    ∀ q ∈ nodesOf (QTree.ofImage img).root, SplitOK img q := by
  intro q hq
  have hq' : q ∈ nodesOf (buildNode img (0, 0) (img.w - 1, img.h - 1)) := hq
  exact (build_nodes_props img (img.w - 1 + (img.h - 1)) 0 0 (img.w - 1) (img.h - 1)
    (by omega) (by omega) (by omega) q hq').2

theorem c8_build_split_rule_witness :
    SplitOK img2 (QTree.ofImage img2).root :=
  c8_build_split_rule img2 (QTree.ofImage img2).root
    (by rw [nodesOf_eq]; exact List.mem_cons_self _ _)

/-- C9: the spec's concrete scenario.  Building from the 2×2 image with
pixels (255,0,0),(0,255,0);(0,0,255),(255,255,0) yields a root of average
(127,127,63) with exactly four 1×1 leaf children; Prune(500) collapses it to
a single leaf with that average; and Render(1) of the pruned tree paints all
four pixels of the 2×2 output with that color, whatever the canvas held. -/
theorem c9_concrete_scenario :
    (QTree.ofImage img2).root =
      Node.mk (0, 0) (1, 1) ⟨127, 127, 63⟩
        (some (Node.mk (0, 0) (0, 0) ⟨255, 0, 0⟩ none none none none))
        (some (Node.mk (1, 0) (1, 0) ⟨0, 255, 0⟩ none none none none))
        (some (Node.mk (0, 1) (0, 1) ⟨0, 0, 255⟩ none none none none))
        (some (Node.mk (1, 1) (1, 1) ⟨255, 255, 0⟩ none none none none)) ∧
    ((QTree.ofImage img2).pruneAt euclWithin 500).root =
      Node.mk (0, 0) (1, 1) ⟨127, 127, 63⟩ none none none none ∧
    ∀ bg : Canvas,
      ((QTree.ofImage img2).pruneAt euclWithin 500).render 1 bg (0, 0) = ⟨127, 127, 63⟩ ∧
      ((QTree.ofImage img2).pruneAt euclWithin 500).render 1 bg (1, 0) = ⟨127, 127, 63⟩ ∧
      ((QTree.ofImage img2).pruneAt euclWithin 500).render 1 bg (0, 1) = ⟨127, 127, 63⟩ ∧
      ((QTree.ofImage img2).pruneAt euclWithin 500).render 1 bg (1, 1) = ⟨127, 127, 63⟩ := by
  refine ⟨ofImage2_root, prune2_root, fun bg => ?_⟩
  have h : ∀ p : ℤ × ℤ, ((QTree.ofImage img2).pruneAt euclWithin 500).render 1 bg p =
      renderPixel 1 (some ((QTree.ofImage img2).pruneAt euclWithin 500).root) bg p :=
    fun _ => rfl
  refine ⟨?_, ?_, ?_, ?_⟩ <;> (rw [h, prune2_root, renderPixel_leaf2_s1]; norm_num)

/-- C10: `FlipHorizontal` and `RotateCCW` only permute child pointers and
rewrite rectangles: on every tree they preserve the multiset of average
colors over all nodes, and the root keeps its own average. -/
theorem c10_transform_avgs (t : QTree) :
    avgsM t.flipH.root = avgsM t.root ∧ t.flipH.root.avg = t.root.avg ∧
    avgsM t.rotCCW.root = avgsM t.root ∧ t.rotCCW.root.avg = t.root.avg := by
  have hf : t.flipH.root = flipNode t.root := rfl
  have hr : t.rotCCW.root =
      rotateSubtree (t.root.withRect t.root.ul (t.root.lr.2, t.root.lr.1)) := rfl
  refine ⟨?_, ?_, ?_, ?_⟩
  · have h := avgsM_flip_shift t.root.size t.root le_rfl t.root.ul t.root.lr
    rw [Node.withRect_self] at h
    rw [hf]
    exact h
  · rw [hf, flipNode_avg]
  · rw [hr]
    exact avgsM_rot_shift t.root.size t.root le_rfl t.root.ul (t.root.lr.2, t.root.lr.1)
  · rw [hr, rotateSubtree_avg, Node.withRect_avg]
